import Mathlib

/-!
A shallow embedding of `userspace/libsinsp/sinsp_curl.cpp` (class `sinsp_curl`).

The file wraps libcurl's easy interface.  libcurl itself, the POSIX calls and the
logger are outside the translated source; they appear here as an explicit
environment (`Engine`, `Posix`) and as fields of the mutable `State`.

* text (`std::string`, `const char*`) is `List Char`;
* raw trace buffers (`unsigned char*`) are `List UInt8`;
* `size_t` arithmetic is `Nat` arithmetic modulo `2 ^ 64`;
* a thrown `sinsp_exception` is the `error` case of the result, and the state at
  the point of the throw is kept next to it.
-/

namespace SinspCurl

/-- Text as the C++ code handles it: a sequence of `char`. -/
abbrev Str := List Char

/-! ## libcurl constants (curl.h) -/

/-- The code `CURLE_OK`. -/
def CURLE_OK : Nat := 0

/-- The code `CURLE_BAD_FUNCTION_ARGUMENT`, what libcurl answers on a NULL handle. -/
def CURLE_BAD_FUNCTION_ARGUMENT : Nat := 43

/-- The code `CURLE_AGAIN`. -/
def CURLE_AGAIN : Nat := 81

/-- The options this file sets (the `CURLOPT_` names of curl.h). -/
inductive CURLoption
  | FORBID_REUSE | SSLCERTTYPE | SSLCERT | KEYPASSWD | SSLKEYTYPE | SSLKEY
  | SSL_VERIFYPEER | SSL_VERIFYHOST | CAINFO | HTTPHEADER
  | DEBUGFUNCTION | DEBUGDATA | VERBOSE
  | URL | FOLLOWLOCATION | CONNECTTIMEOUT | TIMEOUT_MS | NOSIGNAL
  | ACCEPT_ENCODING | WRITEFUNCTION | WRITEDATA
  deriving DecidableEq, Repr

/-- The two callbacks of this file that are handed to libcurl. -/
inductive Callback
  | trace | write_data
  deriving DecidableEq, Repr

/-- The two objects whose address is handed to libcurl. -/
inductive Pointee
  | m_config | os
  deriving DecidableEq, Repr

/-- The value passed as third argument of `curl_easy_setopt`. -/
inductive OptVal
  | long (v : Int)
  | str (s : Str)
  | slist (l : List Str)
  | fn (f : Callback)
  | ptr (p : Pointee)
  deriving DecidableEq, Repr

/-- One `curl_easy_setopt` call made on the handle, with the code libcurl returned. -/
structure Call where
  opt : CURLoption
  val : OptVal
  ret : Nat
  deriving DecidableEq, Repr

/-- The value of an option in effect on a handle: the value of the last call for
that option which libcurl accepted with `CURLE_OK`. -/
def getopt (calls : List Call) (o : CURLoption) : Option OptVal :=
  (calls.reverse.find? (fun c => decide (c.opt = o) && decide (c.ret = CURLE_OK))).map Call.val

/-- The `curl_infotype` values of curl.h; `END` stands for any value the switch of
`trace` does not name. -/
inductive curl_infotype
  | TEXT | HEADER_IN | HEADER_OUT | DATA_IN | DATA_OUT | SSL_DATA_IN | SSL_DATA_OUT | END
  deriving DecidableEq, Repr

/-- One body chunk libcurl hands to the write callback during `curl_easy_perform`:
the buffer at `ptr` and the two counts. libcurl passes a buffer of `size * nmemb`
bytes. -/
structure Chunk where
  ptr : Str
  size : Nat
  nmemb : Nat
  deriving DecidableEq, Repr

/-- What libcurl and the network do; none of it is in the translated source.
`CURL_LAST` is the terminal enumerator of `CURLcode` in the curl.h compiled against,
`strerror` is `curl_easy_strerror`, `setopt_ret` the code `curl_easy_setopt` returns
(it may depend on the calls made before), `chunks` the body chunks of the transfer
in order, `perform_ret` the code `curl_easy_perform` returns, `getinfo_ret` and
`response_code` the outcome of `curl_easy_getinfo(CURLINFO_RESPONSE_CODE)`. -/
structure Engine where
  CURL_LAST : Nat
  strerror : Nat → Str
  setopt_ret : List Call → CURLoption → OptVal → Nat
  chunks : List Chunk
  perform_ret : Nat
  getinfo_ret : Nat
  response_code : Int

/-- The result of `shm_unlink` for a name and the text of `strerror(errno)` after it. -/
structure Posix where
  shm_unlink : Str → Int
  errno_text : Str

/-- Severities of `sinsp_logger`. -/
inductive Severity
  | SEV_DEBUG | SEV_WARNING | SEV_ERROR
  deriving DecidableEq, Repr

/-- The mutable world the member functions act on: the easy handle `m_curl`
(`none` is the NULL pointer, otherwise the option calls made on it so far), the
caller's output stream, the lines given to `g_logger`, what was printed on the
standard error stream, and the static `m_config.trace_ascii`. -/
structure State where
  handle : Option (List Call)
  os : Str
  log : List (Severity × Str)
  stderr : Str
  trace_ascii : Int
  deriving DecidableEq, Repr

deriving instance DecidableEq for Except

/-- A computation that may throw `sinsp_exception` and changes the state. -/
abbrev CurlM (α : Type) := State → Except Str α × State

instance : Monad CurlM where
  pure a := fun s => (Except.ok a, s)
  bind m f := fun s =>
    match m s with
    | (Except.ok a, s1) => f a s1
    | (Except.error msg, s1) => (Except.error msg, s1)

/-- The statement `throw sinsp_exception(msg)`. -/
def raise {α : Type} (msg : Str) : CurlM α := fun s => (Except.error msg, s)

/-- The current state. -/
def getState : CurlM State := fun s => (Except.ok s, s)

/-- The call `g_logger.log(msg, sev)`. -/
def g_logger_log (msg : Str) (sev : Severity) : CurlM Unit :=
  fun s => (Except.ok (), { s with log := s.log ++ [(sev, msg)] })

/-- The statement `os << text << std::flush` on the caller's stream. -/
def os_put (text : Str) : CurlM Unit :=
  fun s => (Except.ok (), { s with os := s.os ++ text })

/-- The conversion `std::string::c_str()` followed by a read as a C string: the
characters before the first NUL. -/
def c_str (s : Str) : Str := s.takeWhile (fun ch => ch != Char.ofNat 0)

/-- The call `curl_easy_setopt(m_curl, o, v)`: libcurl answers; the call and its
code are recorded on the handle. -/
def curl_easy_setopt (e : Engine) (o : CURLoption) (v : OptVal) : CurlM Nat :=
  fun s =>
    match s.handle with
    | none => (Except.ok CURLE_BAD_FUNCTION_ARGUMENT, s)
    | some calls =>
      let r := e.setopt_ret calls o v
      (Except.ok r, { s with handle := some (calls ++ [Call.mk o v r]) })

/-- A specification of a computation: from every state satisfying `P`, the
result and the final state satisfy `Q`. -/
def Triple {α : Type} (P : State → Prop) (m : CurlM α) (Q : Except Str α → State → Prop) : Prop :=
  ∀ s, P s → Q (m s).1 (m s).2

/-- A postcondition by cases: `R` on the value returned, `E` on the exception thrown. -/
def onOk {α : Type} (R : α → State → Prop) (E : Str → State → Prop) (r : Except Str α)
    (s : State) : Prop :=
  match r with
  | Except.ok a => R a s
  | Except.error msg => E msg s

/-! ## The members of `sinsp_curl` -/

/-- The holder `sinsp_curl::ssl`. -/
structure ssl where
  m_cert_type : Str
  m_cert : Str
  m_key : Str
  m_key_passphrase : Str
  m_ca_cert : Str
  m_verify_peer : Bool
  deriving DecidableEq, Repr

/-- The holder `sinsp_curl::bearer_token`; `m_bt_auth_header` is the `curl_slist`,
the empty list being the NULL pointer. -/
structure bearer_token where
  m_bearer_token : Str
  m_bt_auth_header : List Str
  deriving DecidableEq, Repr

/-- The data members of `sinsp_curl` other than `m_curl` (which is `State.handle`);
`m_uri` is the text `m_uri.to_string()` gives. -/
structure sinsp_curl where
  m_uri : Str
  m_timeout_ms : Int
  m_ssl : Option ssl
  m_bt : Option bearer_token
  m_debug : Bool

/-- Lines 205-219, the body of `sinsp_curl::check_error`: the exception it throws
for a return value, if any. -/
def check_result (e : Engine) (ret : Nat) : Except Str Unit :=
  if ret ≥ e.CURL_LAST then
    Except.error ("Invalid CURL return value:".toList ++ (toString ret).toList)
  else if CURLE_OK ≠ ret ∧ CURLE_AGAIN ≠ ret then
    Except.error ("Error: ".toList ++ e.strerror ret)
  else
    Except.ok ()

/-- The function `sinsp_curl::check_error` as a step of a computation: it does not
touch the state. -/
def check_error (e : Engine) (ret : Nat) : CurlM Unit := fun s => (check_result e ret, s)

/-- The pattern `check_error(curl_easy_setopt(m_curl, o, v))`. -/
def setopt_checked (e : Engine) (o : CURLoption) (v : OptVal) : CurlM Unit := do
  let r ← curl_easy_setopt e o v
  check_error e r

/-- Lines 82-88, `sinsp_curl::init_bt`. -/
def init_bt (e : Engine) (bt : Option bearer_token) : CurlM Unit :=
  match bt with
  | some b =>
    if b.m_bt_auth_header ≠ [] then
      setopt_checked e CURLoption.HTTPHEADER (OptVal.slist b.m_bt_auth_header)
    else pure ()
  | none => pure ()

/-- The assignment `m_config.trace_ascii = en`. -/
def set_trace_ascii (en : Int) : CurlM Unit :=
  fun s => (Except.ok (), { s with trace_ascii := en })

/-- Lines 90-101, `sinsp_curl::enable_debug`: the three option calls are made
without `check_error`, their codes are dropped. -/
def enable_debug (e : Engine) (enable : Bool) : CurlM Unit := do
  let st ← getState
  if st.handle.isSome then do
    let _ ← curl_easy_setopt e CURLoption.DEBUGFUNCTION (OptVal.fn Callback.trace)
    let _ ← curl_easy_setopt e CURLoption.DEBUGDATA (OptVal.ptr Pointee.m_config)
    set_trace_ascii (if enable then 1 else 0)
    let _ ← curl_easy_setopt e CURLoption.VERBOSE (OptVal.long (if enable then 1 else 0))
    pure ()
  else pure ()

/-- Lines 107-115 of `init_ssl`: the client certificate. -/
def init_ssl_cert (e : Engine) (d : ssl) : CurlM Unit :=
  if d.m_cert ≠ [] then do
    (if d.m_cert_type ≠ [] then
      setopt_checked e CURLoption.SSLCERTTYPE (OptVal.str (c_str d.m_cert_type))
    else pure ())
    setopt_checked e CURLoption.SSLCERT (OptVal.str (c_str d.m_cert))
    g_logger_log ("CURL SSL certificate: ".toList ++ d.m_cert) Severity.SEV_DEBUG
  else pure ()

/-- Lines 117-121 of `init_ssl`: the key passphrase. -/
def init_ssl_passphrase (e : Engine) (d : ssl) : CurlM Unit :=
  if d.m_key_passphrase ≠ [] then do
    setopt_checked e CURLoption.KEYPASSWD (OptVal.str (c_str d.m_key_passphrase))
    g_logger_log "CURL SSL key password SET. ".toList Severity.SEV_DEBUG
  else pure ()

/-- Lines 123-131 of `init_ssl`: the private key. -/
def init_ssl_key (e : Engine) (d : ssl) : CurlM Unit :=
  if d.m_key ≠ [] then do
    (if d.m_cert_type ≠ [] then
      setopt_checked e CURLoption.SSLKEYTYPE (OptVal.str (c_str d.m_cert_type))
    else pure ())
    setopt_checked e CURLoption.SSLKEY (OptVal.str (c_str d.m_key))
    g_logger_log ("CURL SSL key: ".toList ++ d.m_key) Severity.SEV_DEBUG
  else pure ()

/-- Lines 133-144 of `init_ssl`: peer and host verification. -/
def init_ssl_verify (e : Engine) (d : ssl) : CurlM Unit :=
  if d.m_verify_peer then do
    setopt_checked e CURLoption.SSL_VERIFYPEER (OptVal.long 1)
    setopt_checked e CURLoption.SSL_VERIFYHOST (OptVal.long 2)
    g_logger_log "CURL SSL peer and host verification ENABLED.".toList Severity.SEV_DEBUG
  else do
    setopt_checked e CURLoption.SSL_VERIFYPEER (OptVal.long 0)
    setopt_checked e CURLoption.SSL_VERIFYHOST (OptVal.long 0)
    g_logger_log "CURL SSL peer and host verification DISABLED.".toList Severity.SEV_DEBUG

/-- Lines 146-150 of `init_ssl`: the CA certificate. -/
def init_ssl_ca (e : Engine) (d : ssl) : CurlM Unit :=
  if d.m_ca_cert ≠ [] then do
    setopt_checked e CURLoption.CAINFO (OptVal.str (c_str d.m_ca_cert))
    g_logger_log ("CURL SSL CA cert set to: ".toList ++ d.m_ca_cert) Severity.SEV_DEBUG
  else pure ()

/-- Lines 103-152, `sinsp_curl::init_ssl`: under the guard `curl && ssl_data`, its
five consecutive statements. -/
def init_ssl (e : Engine) (ssl_data : Option ssl) : CurlM Unit := do
  let st ← getState
  match ssl_data with
  | none => pure ()
  | some d =>
    if st.handle.isSome then do
      init_ssl_cert e d
      init_ssl_passphrase e d
      init_ssl_key e d
      init_ssl_verify e d
      init_ssl_ca e d
    else pure ()

/-- Lines 55-75, `sinsp_curl::init`. -/
def init (e : Engine) (self : sinsp_curl) : CurlM Unit := do
  let st ← getState
  (if st.handle.isNone then raise "Cannot initialize CURL.".toList else pure ())
  setopt_checked e CURLoption.FORBID_REUSE (OptVal.long 1)
  (if self.m_ssl.isSome then init_ssl e self.m_ssl else pure ())
  (if self.m_bt.isSome then init_bt e self.m_bt else pure ())
  enable_debug e self.m_debug

/-- The three options `enable_debug` sets. -/
def isDebugOpt (o : CURLoption) : Bool :=
  decide (o = CURLoption.DEBUGFUNCTION) || decide (o = CURLoption.DEBUGDATA)
    || decide (o = CURLoption.VERBOSE)

/-- A recorded call that lets the setup go on: a debug option (its code is not
looked at), or a code `check_error` returns normally on. -/
def Tolerated (e : Engine) (c : Call) : Prop :=
  isDebugOpt c.opt = true ∨ check_result e c.ret = Except.ok ()

/-- The handle holds the calls `cs0` followed by calls that all let the setup go on. -/
def SetupInv (e : Engine) (cs0 : List Call) (s : State) : Prop :=
  ∃ new, s.handle = some (cs0 ++ new) ∧ ∀ c ∈ new, Tolerated e c

/-- The outcome of a setup step started on a handle holding `cs0`: it returned and
`SetupInv` holds, or it threw, and then the last call recorded is one whose code
`check_error` threw that very exception for, all calls before it being tolerated. -/
def SetupPost {α : Type} (e : Engine) (cs0 : List Call) (r : Except Str α) (s : State) : Prop :=
  match r with
  | Except.ok _ => SetupInv e cs0 s
  | Except.error msg =>
    ∃ new c, s.handle = some (cs0 ++ new ++ [c]) ∧ (∀ c1 ∈ new, Tolerated e c1)
      ∧ isDebugOpt c.opt = false ∧ check_result e c.ret = Except.error msg

/-- The handle is not NULL. -/
def HasHandle (s : State) : Prop := ∃ cs, s.handle = some cs

/-- The two verification options in effect on the handle are the pair `init_ssl`
chooses for `verify_peer`. -/
def VerifySet (verify_peer : Bool) (s : State) : Prop :=
  ∃ cs, s.handle = some cs
    ∧ getopt cs CURLoption.SSL_VERIFYPEER = some (OptVal.long (if verify_peer then 1 else 0))
    ∧ getopt cs CURLoption.SSL_VERIFYHOST = some (OptVal.long (if verify_peer then 2 else 0))

/-- Lines 418-426, `sinsp_curl::ssl::unmemorize_file`. -/
def unmemorize_file (px : Posix) (mem_file : Str) : CurlM Unit :=
  if px.shm_unlink (c_str mem_file) = 0 then
    g_logger_log ("Memory file [".toList ++ mem_file ++ "] unlink error: ".toList ++ px.errno_text)
      Severity.SEV_WARNING
  else pure ()

/-! ## The fetch: `get_data`, `write_data` -/

/-- The modulus of `size_t` arithmetic. -/
def SIZE_MOD : Nat := 2 ^ 64

/-- Lines 198-203, `sinsp_curl::write_data`: `size * nmemb` characters at `ptr` are
appended to the stream behind `cb`, and `size * nmemb` is returned. -/
def write_data (ptr : Str) (size nmemb : Nat) : CurlM Nat := do
  let data := ptr.take ((size * nmemb) % SIZE_MOD)
  os_put data
  pure ((size * nmemb) % SIZE_MOD)

/-- The characters `write_data` reads from a chunk: `size * nmemb` of them. -/
def Chunk.data (ch : Chunk) : Str := ch.ptr.take ((ch.size * ch.nmemb) % SIZE_MOD)

/-- The engine delivering one body chunk: the write callback installed on the
handle is called with the stream installed as its data; when `write_data` and the
stream are not installed the bytes do not reach this code. -/
def deliver (ch : Chunk) : CurlM Unit := do
  let st ← getState
  match st.handle with
  | some calls =>
    if getopt calls CURLoption.WRITEFUNCTION = some (OptVal.fn Callback.write_data)
        ∧ getopt calls CURLoption.WRITEDATA = some (OptVal.ptr Pointee.os) then do
      let _ ← write_data ch.ptr ch.size ch.nmemb
      pure ()
    else pure ()
  | none => pure ()

/-- The engine delivering the chunks in order. -/
def deliverAll : List Chunk → CurlM Unit
  | [] => pure ()
  | ch :: rest => do
    deliver ch
    deliverAll rest

/-- The call `curl_easy_perform(m_curl)`: the body chunks of the transfer go through
the installed write callback, then the transfer's result code is returned.  The
debug callback (`trace`, below) only adds log lines and is modelled on its own. -/
def curl_easy_perform (e : Engine) : CurlM Nat := do
  deliverAll e.chunks
  pure e.perform_ret

/-- The call `curl_easy_getinfo(m_curl, CURLINFO_RESPONSE_CODE, &http_code)` with
`http_code` initialised to 0: the code returned and the value of `http_code` after
it (written only when the call succeeds). -/
def curl_easy_getinfo_response_code (e : Engine) : CurlM (Nat × Int) :=
  pure (e.getinfo_ret, if e.getinfo_ret = CURLE_OK then e.response_code else 0)

/-- The conversion `static_cast<int>` of a `long`. -/
def to_int (v : Int) : Int := (v + 2 ^ 31) % 2 ^ 32 - 2 ^ 31

/-- Lines 165-196, `sinsp_curl::get_data(std::ostream&)`; the stream is `State.os`. -/
def get_data (e : Engine) (self : sinsp_curl) : CurlM Bool := do
  setopt_checked e CURLoption.URL (OptVal.str (c_str self.m_uri))
  setopt_checked e CURLoption.FOLLOWLOCATION (OptVal.long 1)
  setopt_checked e CURLoption.CONNECTTIMEOUT (OptVal.long (to_int (Int.tdiv self.m_timeout_ms 1000)))
  setopt_checked e CURLoption.TIMEOUT_MS (OptVal.long self.m_timeout_ms)
  setopt_checked e CURLoption.NOSIGNAL (OptVal.long 1)
  setopt_checked e CURLoption.ACCEPT_ENCODING (OptVal.str "deflate".toList)
  setopt_checked e CURLoption.WRITEFUNCTION (OptVal.fn Callback.write_data)
  setopt_checked e CURLoption.WRITEDATA (OptVal.ptr Pointee.os)
  let res ← curl_easy_perform e
  if res ≠ CURLE_OK then do
    os_put (e.strerror res)
    pure (decide (res = CURLE_OK))
  else do
    let info ← curl_easy_getinfo_response_code e
    check_error e info.1
    if info.2 ≥ 400 then do
      g_logger_log ("CURL HTTP error: ".toList ++ (toString info.2).toList) Severity.SEV_ERROR
      pure false
    else
      pure (decide (res = CURLE_OK))

/-- The option calls of lines 168-175 as recorded on the handle when libcurl accepts
each of them. -/
def fetch_options (self : sinsp_curl) : List Call :=
  [ Call.mk CURLoption.URL (OptVal.str (c_str self.m_uri)) CURLE_OK,
    Call.mk CURLoption.FOLLOWLOCATION (OptVal.long 1) CURLE_OK,
    Call.mk CURLoption.CONNECTTIMEOUT (OptVal.long (to_int (Int.tdiv self.m_timeout_ms 1000))) CURLE_OK,
    Call.mk CURLoption.TIMEOUT_MS (OptVal.long self.m_timeout_ms) CURLE_OK,
    Call.mk CURLoption.NOSIGNAL (OptVal.long 1) CURLE_OK,
    Call.mk CURLoption.ACCEPT_ENCODING (OptVal.str "deflate".toList) CURLE_OK,
    Call.mk CURLoption.WRITEFUNCTION (OptVal.fn Callback.write_data) CURLE_OK,
    Call.mk CURLoption.WRITEDATA (OptVal.ptr Pointee.os) CURLE_OK ]

/-! ## The bearer token holder -/

/-- The call `std::getline(ifs, tmp)` on the unread rest of the file: it fails when
nothing is left; otherwise it extracts up to the next newline, which it consumes
and does not store. -/
def getline (rest : Str) : Option (Str × Str) :=
  if rest = [] then none
  else some (rest.takeWhile (fun ch => ch != '\n'), (rest.dropWhile (fun ch => ch != '\n')).drop 1)

/-- The loop of lines 343-346 with `content` accumulated so far; `none` when the
fuel does not suffice to reach the end of the file. -/
def stringize_loop : Nat → Str → Str → Option Str
  | fuel, rest, content =>
    match getline rest with
    | none => some content
    | some (tmp, rest1) =>
      match fuel with
      | 0 => none
      | fuel1 + 1 => stringize_loop fuel1 rest1 (content ++ tmp ++ ['\n'])

/-- Lines 339-348, `bearer_token::stringize_file`; the argument is the content of
the file at `disk_file`, `none` when it cannot be opened (the stream is then in a
failed state and the first `getline` fails). -/
def stringize_file (disk_file : Option Str) : Option Str :=
  match disk_file with
  | none => some []
  | some content => stringize_loop content.length content []

/-- A text with a newline added at its end unless it is empty or already ends in
one: what reading a file line by line and writing each line back with a newline gives. -/
def terminated (c : Str) : Str :=
  if c = [] ∨ c.getLast? = some '\n' then c else c ++ ['\n']

/-- The test of line 318 on one character. -/
def isCRLF (ch : Char) : Bool := ch == '\r' || ch == '\n'

/-- The loop of lines 318-322 on `m_bearer_token`; `none` when the fuel does not
suffice to leave the loop. -/
def strip_loop : Nat → Str → Option Str
  | fuel, tok =>
    if tok.length ≠ 0 ∧ (tok.getLast? = some '\r' ∨ tok.getLast? = some '\n') then
      match fuel with
      | 0 => none
      | fuel1 + 1 => strip_loop fuel1 tok.dropLast
    else some tok

/-- The call `curl_slist_append(list, s)`, which copies the C string `s`. -/
def curl_slist_append (list : List Str) (s : Str) : List Str := list ++ [s]

/-- Lines 314-329, the constructor of `bearer_token`; `none` only if one of its two
loops does not end within its fuel. -/
def bearer_token.make (bearer_token_file : Option Str) : Option bearer_token :=
  match stringize_file bearer_token_file with
  | none => none
  | some content =>
    match strip_loop content.length content with
    | none => none
    | some tok =>
      if tok.length ≠ 0 then
        let hdr := "Authorization: Bearer ".toList ++ tok
        some (bearer_token.mk tok (curl_slist_append [] (c_str hdr)))
      else some (bearer_token.mk tok [])

/-! ## The trace dumper -/

/-- The constant `DBG_BUF_SIZE` of `dump`. -/
def DBG_BUF_SIZE : Nat := 1024

/-- What `snprintf(stream, DBG_BUF_SIZE, ...)` followed by `os << stream` appends,
given the fully formatted text: at most `DBG_BUF_SIZE - 1` characters are stored,
and `os << stream` reads them as a C string. -/
def emit (formatted : Str) : Str := c_str (formatted.take (DBG_BUF_SIZE - 1))

/-- Digits padded on the left with zeros up to `k` characters (a printf precision,
or the `0` flag with a width). -/
def zeroPad (k : Nat) (ds : Str) : Str := List.replicate (k - ds.length) '0' ++ ds

/-- The conversion `(long)` of a `size_t`. -/
def to_long (n : Nat) : Int :=
  if n % SIZE_MOD < 2 ^ 63 then ((n % SIZE_MOD : Nat) : Int) else ((n % SIZE_MOD : Nat) : Int) - 2 ^ 64

/-- The printf conversion `%P.Plx` of a `long`: its 64-bit pattern in lowercase
hex, at least `prec` digits. -/
def fmt_lx (prec : Nat) (v : Int) : Str := zeroPad prec (Nat.toDigits 16 (v % 2 ^ 64).toNat)

/-- The printf conversion `%P.Pld` of a `long`: sign and at least `prec` digits. -/
def fmt_ld (prec : Nat) (v : Int) : Str :=
  if v < 0 then '-' :: zeroPad prec (Nat.toDigits 10 v.natAbs)
  else zeroPad prec (Nat.toDigits 10 v.natAbs)

/-- The printf conversion `%02x` of an `unsigned char`. -/
def fmt_02x (b : UInt8) : Str := zeroPad 2 (Nat.toDigits 16 b.toNat)

/-- The argument of `%c` on line 262:
`(ptr[i+c]>=0x20) && (ptr[i+c]<0x80) ? ptr[i+c] : '.'`. -/
def render (b : UInt8) : Char :=
  if b.toNat ≥ 0x20 ∧ b.toNat < 0x80 then Char.ofNat b.toNat else '.'

/-- The header written on lines 233-234. -/
def dump_header (text : Str) (size : Nat) : Str :=
  emit (text ++ ", ".toList ++ fmt_ld 10 (to_long size) ++ " bytes (0x".toList
    ++ fmt_lx 8 (to_long size) ++ ")\n".toList)

/-- The read `ptr[k]`. -/
def byteAt (ptr : List UInt8) (k : Nat) : UInt8 := ptr.getD k 0

/-- The loop of lines 241-252: one cell per column `c < width`. -/
def hexCells (ptr : List UInt8) (size width i : Nat) : Str :=
  ((List.range width).map (fun c =>
    if (i + c) % SIZE_MOD < size then emit (fmt_02x (byteAt ptr ((i + c) % SIZE_MOD)) ++ [' '])
    else emit "   ".toList)).flatten

/-- The loop of lines 255-269 with `k` columns to go (`c = width - k`): the
characters written, and the value of `i` when the loop is left. -/
def charLoop (ptr : List UInt8) (size : Nat) (nohex : Bool) (width i : Nat) : Nat → Str × Nat
  | 0 => ([], i)
  | k + 1 =>
    let c := width - (k + 1)
    if (i + c) % SIZE_MOD < size then
      if nohex ∧ (i + c + 1) % SIZE_MOD < size ∧ byteAt ptr ((i + c) % SIZE_MOD) = 0x0D
          ∧ byteAt ptr ((i + c + 1) % SIZE_MOD) = 0x0A then
        ([], (i + (c + 2 + (SIZE_MOD - width)) % SIZE_MOD) % SIZE_MOD)
      else
        let ch := emit [render (byteAt ptr ((i + c) % SIZE_MOD))]
        if nohex ∧ (i + c + 2) % SIZE_MOD < size ∧ byteAt ptr ((i + c + 1) % SIZE_MOD) = 0x0D
            ∧ byteAt ptr ((i + c + 2) % SIZE_MOD) = 0x0A then
          (ch, (i + (c + 3 + (SIZE_MOD - width)) % SIZE_MOD) % SIZE_MOD)
        else
          let r := charLoop ptr size nohex width i k
          (ch ++ r.1, r.2)
    else ([], i)

/-- One pass of the outer loop of `dump`: the row starting at index `offset`. -/
structure Row where
  offset : Nat
  label : Str
  cells : Str
  chars : Str
  deriving DecidableEq, Repr

/-- The text one pass of the outer loop appends to `os`. -/
def Row.text (r : Row) : Str := r.label ++ r.cells ++ r.chars ++ emit ['\n']

/-- The outer loop of lines 235-272 from index `i` on; `none` when the fuel does not
suffice to reach `i >= size`. -/
def rowLoop (ptr : List UInt8) (size : Nat) (nohex : Bool) (width : Nat) : Nat → Nat → Option (List Row)
  | fuel, i =>
    if i < size then
      match fuel with
      | 0 => none
      | fuel1 + 1 =>
        let label := emit (fmt_lx 4 (to_long i) ++ ": ".toList)
        let cells := if nohex then [] else hexCells ptr size width i
        let r := charLoop ptr size nohex width i width
        (rowLoop ptr size nohex width fuel1 ((r.2 + width) % SIZE_MOD)).map
          (fun rows => Row.mk i label cells r.1 :: rows)
    else some []

/-- The rows `dump` writes for a buffer: `width` is 0x10, or 0x40 when `nohex` is
set. -/
def dump_rows (ptr : List UInt8) (size : Nat) (nohex : Int) : Option (List Row) :=
  rowLoop ptr size (decide (nohex ≠ 0)) (if nohex ≠ 0 then 0x40 else 0x10) size 0

/-- Lines 221-274, `sinsp_curl::dump`: the line given to `g_logger` at debug
severity; `none` only if the outer loop does not end within its fuel. -/
def dump (text : Str) (ptr : List UInt8) (size : Nat) (nohex : Int) : Option (Severity × Str) :=
  (dump_rows ptr size nohex).map (fun rows =>
    (Severity.SEV_DEBUG, "CURL: ".toList ++ (dump_header text size ++ (rows.map Row.text).flatten)))

/-- The text of the `unsigned char` data read as a C string by `%s`. -/
def bytes_c_str (data : List UInt8) : Str :=
  (data.takeWhile (fun b => b != 0)).map (fun b => Char.ofNat b.toNat)

/-- Lines 276-308, `sinsp_curl::trace`, with `userp` pointing at `m_config`: the
value returned and the new state; `none` only if `dump` does not end. -/
def trace (type : curl_infotype) (data : List UInt8) (size : Nat) (s : State) : Option (Int × State) :=
  let go (text : Str) : Option (Int × State) :=
    (dump text data size s.trace_ascii).map (fun line => (0, { s with log := s.log ++ [line] }))
  match type with
  | curl_infotype.TEXT => some (0, { s with stderr := s.stderr ++ "== Info: ".toList ++ bytes_c_str data })
  | curl_infotype.HEADER_OUT => go "=> Send header".toList
  | curl_infotype.DATA_OUT => go "=> Send data".toList
  | curl_infotype.SSL_DATA_OUT => go "=> Send SSL data".toList
  | curl_infotype.HEADER_IN => go "<= Recv header".toList
  | curl_infotype.DATA_IN => go "<= Recv data".toList
  | curl_infotype.SSL_DATA_IN => go "<= Recv SSL data".toList
  | curl_infotype.END => some (0, s)

/-! ## The layout of the dump in the words of the specification -/

/-- A lowercase hexadecimal digit. -/
def isLowerHex (ch : Char) : Bool := ch.isDigit || (decide ('a' ≤ ch) && decide (ch ≤ 'f'))

/-- A CR LF pair starts at index `p` of the buffer. -/
def CRLFat (buf : List UInt8) (p : Nat) : Prop :=
  p + 1 < buf.length ∧ byteAt buf p = 0x0D ∧ byteAt buf (p + 1) = 0x0A

instance (buf : List UInt8) (p : Nat) : Decidable (CRLFat buf p) := by
  unfold CRLFat
  infer_instance

/-- The buffer with every CR LF pair deleted. -/
def stripCRLF : List UInt8 → List UInt8
  | [] => []
  | [b] => [b]
  | b :: b2 :: t => if b = 0x0D ∧ b2 = 0x0A then stripCRLF t else b :: stripCRLF (b2 :: t)

/-- Row `k` of the hex dump as the specification describes it: the offset `16 * k`
in at least four hex digits and `: `, sixteen cells of three characters (two hex
digits and a space for a byte present, three spaces past the end), the characters
of the bytes of the row, a newline. -/
def hexRow (buf : List UInt8) (k : Nat) : Str :=
  fmt_lx 4 ((16 * k : Nat) : Int) ++ ": ".toList
    ++ ((List.range 16).map (fun c =>
        if 16 * k + c < buf.length then fmt_02x (byteAt buf (16 * k + c)) ++ [' ']
        else "   ".toList)).flatten
    ++ ((buf.drop (16 * k)).take 16).map render
    ++ ['\n']

/-- The header line as the specification describes it: the label, the byte count
in decimal and in hex. -/
def hexHeader (text : Str) (n : Nat) : Str :=
  text ++ ", ".toList ++ fmt_ld 10 (n : Int) ++ " bytes (0x".toList ++ fmt_lx 8 (n : Int)
    ++ ")\n".toList

/-- The rows of an ASCII-only dump from index `i` on, as they follow from the
buffer: there is no row when `i` is at or past the end; otherwise the first row
starts at `i`, renders `len <= 64` bytes none of which starts a CR LF pair, and then
either a CR LF pair stands at `i + len` and the next row starts after it (`brk`), or
no pair stands there and the next row starts at `i + len` (`full`). -/
inductive RowsOK (buf : List UInt8) : Nat → List Row → Prop
  | done (i : Nat) (h : buf.length ≤ i) : RowsOK buf i []
  | brk (i len : Nat) (r : Row) (rs : List Row) (hi : i < buf.length) (hoff : r.offset = i)
      (hlabel : r.label = fmt_lx 4 (i : Int) ++ ": ".toList) (hcells : r.cells = [])
      (hlen : len ≤ 64) (hfit : i + len ≤ buf.length)
      (hchars : r.chars = ((buf.drop i).take len).map render)
      (hnone : ∀ j, j < len → ¬ CRLFat buf (i + j))
      (hpair : CRLFat buf (i + len)) (hrest : RowsOK buf (i + len + 2) rs) :
      RowsOK buf i (r :: rs)
  | full (i len : Nat) (r : Row) (rs : List Row) (hi : i < buf.length) (hoff : r.offset = i)
      (hlabel : r.label = fmt_lx 4 (i : Int) ++ ": ".toList) (hcells : r.cells = [])
      (hlen : len ≤ 64) (hpos : 1 ≤ len) (hfit : i + len ≤ buf.length)
      (hchars : r.chars = ((buf.drop i).take len).map render)
      (hnone : ∀ j, j < len → ¬ CRLFat buf (i + j))
      (hpair : ¬ CRLFat buf (i + len)) (hrest : RowsOK buf (i + len) rs) :
      RowsOK buf i (r :: rs)

/-! ## Sample environments -/

/-- A libcurl of 99 result codes that accepts every option, delivers the given body
chunks, ends the transfer with `perform_ret` and answers the status query with
`response_code`. -/
def acceptingEngine (chunks : List Chunk) (perform_ret : Nat) (response_code : Int) : Engine :=
  Engine.mk 99 (fun r => "curl error ".toList ++ (toString r).toList)
    (fun _ _ _ => CURLE_OK) chunks perform_ret CURLE_OK response_code

/-- A libcurl of 99 result codes that answers `CURLE_UNKNOWN_OPTION` (48) to the
option `bad` and accepts every other option. -/
def rejectingEngine (bad : CURLoption) : Engine :=
  Engine.mk 99 (fun r => "curl error ".toList ++ (toString r).toList)
    (fun _ o _ => if o = bad then 48 else CURLE_OK) [] CURLE_OK CURLE_OK 200

/-- A state with a fresh handle, an empty stream and an empty log. -/
def freshState : State := State.mk (some []) [] [] [] 0

/-- A client without TLS credentials and without bearer token. -/
def plainClient : sinsp_curl := sinsp_curl.mk "http://localhost:8080/api".toList 5000 none none false

/-- Credentials with a client certificate and peer verification switched off. -/
def sampleSsl : ssl :=
  ssl.mk "PEM".toList "/etc/client.crt".toList "/etc/client.key".toList [] "/etc/ca.crt".toList false

/-- A client with the credentials `sampleSsl`. -/
def tlsClient : sinsp_curl :=
  sinsp_curl.mk "https://localhost:8443/api".toList 5000 (some sampleSsl) none false

/-- A `shm_unlink` that returns `ret` for every name. -/
def posixReturning (ret : Int) (errno_text : Str) : Posix := Posix.mk (fun _ => ret) errno_text

/-- The ten bytes `AB`, CR LF, `C`, CR LF, CR LF, LF. -/
def sampleTrace : List UInt8 := [0x41, 0x42, 0x0D, 0x0A, 0x43, 0x0D, 0x0A, 0x0D, 0x0A, 0x0A]

/-! # Theorems -/

/-! ## Running computations -/

@[simp] theorem bind_apply {α β : Type} (m : CurlM α) (f : α → CurlM β) (s : State) :
    (m >>= f) s =
      match m s with
      | (Except.ok a, s1) => f a s1
      | (Except.error msg, s1) => (Except.error msg, s1) := rfl

@[simp] theorem pure_apply {α : Type} (a : α) (s : State) :
    (pure a : CurlM α) s = (Except.ok a, s) := rfl

@[simp] theorem raise_apply {α : Type} (msg : Str) (s : State) :
    (raise msg : CurlM α) s = (Except.error msg, s) := rfl

@[simp] theorem getState_apply (s : State) : getState s = (Except.ok s, s) := rfl

@[simp] theorem g_logger_log_apply (msg : Str) (sev : Severity) (s : State) :
    g_logger_log msg sev s = (Except.ok (), { s with log := s.log ++ [(sev, msg)] }) := rfl

@[simp] theorem os_put_apply (text : Str) (s : State) :
    os_put text s = (Except.ok (), { s with os := s.os ++ text }) := rfl

theorem curl_easy_setopt_some (e : Engine) (o : CURLoption) (v : OptVal) (s : State)
    (cs : List Call) (h : s.handle = some cs) :
    curl_easy_setopt e o v s =
      (Except.ok (e.setopt_ret cs o v),
        { s with handle := some (cs ++ [Call.mk o v (e.setopt_ret cs o v)]) }) := by
  simp [curl_easy_setopt, h]

/-! ## `check_error` -/

@[simp] theorem check_error_apply (e : Engine) (ret : Nat) (s : State) :
    check_error e ret s = (check_result e ret, s) := rfl

theorem check_result_pass (e : Engine) (ret : Nat)
    (h : ret < e.CURL_LAST ∧ (ret = CURLE_OK ∨ ret = CURLE_AGAIN)) :
    check_result e ret = Except.ok () := by
  unfold check_result
  have h1 : ¬ ret ≥ e.CURL_LAST := by omega
  have h2 : ¬ (CURLE_OK ≠ ret ∧ CURLE_AGAIN ≠ ret) := by
    rcases h.2 with h3 | h3 <;> simp [h3]
  simp [h1, h2]

theorem check_result_invalid (e : Engine) (ret : Nat) (h : ret ≥ e.CURL_LAST) :
    check_result e ret
      = Except.error ("Invalid CURL return value:".toList ++ (toString ret).toList) := by
  unfold check_result
  simp [h]

theorem check_result_fail (e : Engine) (ret : Nat) (h1 : ret < e.CURL_LAST)
    (h2 : ret ≠ CURLE_OK) (h3 : ret ≠ CURLE_AGAIN) :
    check_result e ret = Except.error ("Error: ".toList ++ e.strerror ret) := by
  unfold check_result
  have h4 : ¬ ret ≥ e.CURL_LAST := by omega
  have h5 : CURLE_OK ≠ ret ∧ CURLE_AGAIN ≠ ret := ⟨fun h => h2 h.symm, fun h => h3 h.symm⟩
  simp [h4, h5]

theorem check_result_ok_iff (e : Engine) (ret : Nat) :
    check_result e ret = Except.ok ()
      ↔ ret < e.CURL_LAST ∧ (ret = CURLE_OK ∨ ret = CURLE_AGAIN) := by
  constructor
  · intro h
    by_cases h1 : ret ≥ e.CURL_LAST
    · rw [check_result_invalid e ret h1] at h
      cases h
    · by_cases h2 : ret = CURLE_OK
      · exact ⟨by omega, Or.inl h2⟩
      · by_cases h3 : ret = CURLE_AGAIN
        · exact ⟨by omega, Or.inr h3⟩
        · rw [check_result_fail e ret (by omega) h2 h3] at h
          cases h
  · intro h
    rw [check_result_pass e ret h]

theorem setopt_checked_apply (e : Engine) (o : CURLoption) (v : OptVal) (s : State)
    (cs : List Call) (h : s.handle = some cs) :
    setopt_checked e o v s
      = (check_result e (e.setopt_ret cs o v),
          { s with handle := some (cs ++ [Call.mk o v (e.setopt_ret cs o v)]) }) := by
  unfold setopt_checked
  simp only [bind_apply, curl_easy_setopt_some e o v s cs h, check_error_apply]

theorem setopt_checked_ok (e : Engine) (o : CURLoption) (v : OptVal) (s : State)
    (cs : List Call) (h : s.handle = some cs) (hlast : CURLE_OK < e.CURL_LAST)
    (hret : e.setopt_ret cs o v = CURLE_OK) :
    setopt_checked e o v s
      = (Except.ok (), { s with handle := some (cs ++ [Call.mk o v CURLE_OK]) }) := by
  rw [setopt_checked_apply e o v s cs h, hret, check_result_pass e CURLE_OK ⟨hlast, Or.inl rfl⟩]

/-! ## The fetch -/

theorem setopt_checked_mk (e : Engine) (hlast : CURLE_OK < e.CURL_LAST)
    (hset : ∀ cs o v, e.setopt_ret cs o v = CURLE_OK)
    (o : CURLoption) (v : OptVal) (cs : List Call) (os : Str) (log : List (Severity × Str))
    (err : Str) (ta : Int) :
    setopt_checked e o v (State.mk (some cs) os log err ta)
      = (Except.ok (), State.mk (some (cs ++ [Call.mk o v CURLE_OK])) os log err ta) := by
  rw [setopt_checked_ok e o v _ cs rfl hlast (hset cs o v)]

theorem write_data_apply (ptr : Str) (size nmemb : Nat) (s : State) :
    write_data ptr size nmemb s
      = (Except.ok ((size * nmemb) % SIZE_MOD),
          { s with os := s.os ++ ptr.take ((size * nmemb) % SIZE_MOD) }) := by
  simp [write_data]

theorem write_data_exact (ptr : Str) (size nmemb : Nat) (s : State)
    (hlen : ptr.length = size * nmemb) (hfit : size * nmemb < SIZE_MOD) :
    write_data ptr size nmemb s = (Except.ok (size * nmemb), { s with os := s.os ++ ptr }) := by
  rw [write_data_apply, Nat.mod_eq_of_lt hfit, ← hlen, List.take_length]

theorem deliverAll_installed (chunks : List Chunk) (cs : List Call)
    (hfn : getopt cs CURLoption.WRITEFUNCTION = some (OptVal.fn Callback.write_data))
    (hdata : getopt cs CURLoption.WRITEDATA = some (OptVal.ptr Pointee.os))
    (os : Str) (log : List (Severity × Str)) (err : Str) (ta : Int) :
    deliverAll chunks (State.mk (some cs) os log err ta)
      = (Except.ok (), State.mk (some cs) (os ++ (chunks.map Chunk.data).flatten) log err ta) := by
  induction chunks generalizing os with
  | nil => simp [deliverAll]
  | cons ch rest ih =>
    simp only [deliverAll, bind_apply, deliver, getState_apply, hfn, hdata, and_self, if_true,
      write_data_apply, pure_apply]
    rw [ih]
    simp [Chunk.data]

theorem chunk_data_exact (chunks : List Chunk)
    (hwf : ∀ ch ∈ chunks, ch.ptr.length = ch.size * ch.nmemb ∧ ch.size * ch.nmemb < SIZE_MOD) :
    chunks.map Chunk.data = chunks.map Chunk.ptr := by
  apply List.map_congr_left
  intro ch hch
  have h := hwf ch hch
  unfold Chunk.data
  rw [Nat.mod_eq_of_lt h.2, ← h.1, List.take_length]

theorem getopt_append_one (cs : List Call) (c : Call) (o : CURLoption) :
    getopt (cs ++ [c]) o
      = if c.opt = o ∧ c.ret = CURLE_OK then some c.val else getopt cs o := by
  unfold getopt
  rw [List.reverse_append]
  simp only [List.reverse_cons, List.reverse_nil, List.nil_append, List.singleton_append,
    List.find?_cons]
  by_cases h : c.opt = o ∧ c.ret = CURLE_OK
  · simp [h]
  · rw [if_neg h]
    have : (decide (c.opt = o) && decide (c.ret = CURLE_OK)) = false := by
      simpa using h
    rw [this]

theorem getopt_append (cs l : List Call) (o : CURLoption) :
    getopt (cs ++ l) o = (getopt l o).or (getopt cs o) := by
  unfold getopt
  rw [List.reverse_append, List.find?_append]
  cases List.find? (fun c => decide (c.opt = o) && decide (c.ret = CURLE_OK)) l.reverse <;> simp

/-- The option calls `get_data` makes before the transfer. -/
theorem get_data_options (e : Engine) (self : sinsp_curl) (hlast : CURLE_OK < e.CURL_LAST)
    (hset : ∀ cs o v, e.setopt_ret cs o v = CURLE_OK)
    (cs : List Call) (os : Str) (log : List (Severity × Str)) (err : Str) (ta : Int) :
    get_data e self (State.mk (some cs) os log err ta)
      = (do
          let res ← (pure e.perform_ret : CurlM Nat)
          if res ≠ CURLE_OK then do
            os_put (e.strerror res)
            pure (decide (res = CURLE_OK))
          else do
            let info ← curl_easy_getinfo_response_code e
            check_error e info.1
            if info.2 ≥ 400 then do
              g_logger_log ("CURL HTTP error: ".toList ++ (toString info.2).toList)
                Severity.SEV_ERROR
              pure false
            else
              pure (decide (res = CURLE_OK)))
        (State.mk (some (cs ++ fetch_options self)) (os ++ (e.chunks.map Chunk.data).flatten) log err ta) := by
  unfold get_data
  simp only [bind_apply, setopt_checked_mk e hlast hset, curl_easy_perform]
  rw [deliverAll_installed e.chunks]
  · simp [fetch_options]
  · simp only [List.append_assoc, getopt_append]
    simp [getopt, CURLE_OK]
  · simp only [List.append_assoc, getopt_append]
    simp [getopt, CURLE_OK]

theorem get_data_result (e : Engine) (self : sinsp_curl) (hlast : CURLE_OK < e.CURL_LAST)
    (hset : ∀ cs o v, e.setopt_ret cs o v = CURLE_OK) (hinfo : e.getinfo_ret = CURLE_OK)
    (cs : List Call) (os : Str) (log : List (Severity × Str)) (err : Str) (ta : Int) :
    (get_data e self (State.mk (some cs) os log err ta)).1
      = Except.ok (decide (e.perform_ret = CURLE_OK ∧ e.response_code < 400)) := by
  rw [get_data_options e self hlast hset]
  have hpass : check_result e CURLE_OK = Except.ok () :=
    check_result_pass e CURLE_OK ⟨hlast, Or.inl rfl⟩
  by_cases hres : e.perform_ret = CURLE_OK
  · by_cases hcode : e.response_code ≥ 400
    · have h2 : ¬ e.response_code < 400 := by omega
      simp [hres, curl_easy_getinfo_response_code, hinfo, hpass, hcode, h2]
    · have h2 : e.response_code < 400 := by omega
      have h3 : ¬ 400 ≤ e.response_code := by omega
      simp [hres, curl_easy_getinfo_response_code, hinfo, hpass, h2, h3]
  · simp [hres]

theorem get_data_os (e : Engine) (self : sinsp_curl) (hlast : CURLE_OK < e.CURL_LAST)
    (hset : ∀ cs o v, e.setopt_ret cs o v = CURLE_OK)
    (cs : List Call) (os : Str) (log : List (Severity × Str)) (err : Str) (ta : Int) :
    (get_data e self (State.mk (some cs) os log err ta)).2.os
      = os ++ (e.chunks.map Chunk.data).flatten
          ++ (if e.perform_ret = CURLE_OK then [] else e.strerror e.perform_ret) := by
  rw [get_data_options e self hlast hset]
  by_cases hres : e.perform_ret = CURLE_OK
  · cases hc : check_result e e.getinfo_ret with
    | error msg => simp [hres, curl_easy_getinfo_response_code, hc]
    | ok u =>
      simp only [bind_apply, pure_apply, hres, curl_easy_getinfo_response_code, hc, ne_eq,
        not_true_eq_false, if_false, if_true, List.append_nil, check_error_apply]
      by_cases h400 : 400 ≤ e.response_code <;> split <;> simp [h400]
  · simp [hres]

/-! ## Rules for `Triple` -/

theorem Triple.bind {α β : Type} {P : State → Prop} {m : CurlM α} {f : α → CurlM β}
    {Q : Except Str β → State → Prop} (R : α → State → Prop)
    (hm : Triple P m (onOk R (fun msg s => Q (Except.error msg) s)))
    (hf : ∀ a, Triple (R a) (f a) Q) : Triple P (m >>= f) Q := by
  intro s hs
  have h := hm s hs
  simp only [bind_apply]
  rcases hms : m s with ⟨r, s1⟩
  rw [hms] at h
  cases r with
  | ok a => exact hf a s1 h
  | error msg => exact h

theorem Triple.pure {α : Type} {P : State → Prop} (a : α) {Q : Except Str α → State → Prop}
    (h : ∀ s, P s → Q (Except.ok a) s) : Triple P (pure a) Q := by
  intro s hs
  exact h s hs

theorem Triple.ite {α : Type} {P : State → Prop} {c : Prop} [Decidable c] {m1 m2 : CurlM α}
    {Q : Except Str α → State → Prop} (h1 : Triple P m1 Q) (h2 : Triple P m2 Q) :
    Triple P (if c then m1 else m2) Q := by
  split
  · exact h1
  · exact h2

/-! ## Setup steps stop at the first rejected checked call -/

theorem setup_bind {α β : Type} {e : Engine} {cs0 : List Call} {m : CurlM α} {f : α → CurlM β}
    (hm : Triple (SetupInv e cs0) m (SetupPost e cs0))
    (hf : ∀ a, Triple (SetupInv e cs0) (f a) (SetupPost e cs0)) :
    Triple (SetupInv e cs0) (m >>= f) (SetupPost e cs0) := by
  refine Triple.bind (fun _ s => SetupInv e cs0 s) ?_ ?_
  · intro s hs
    have h := hm s hs
    revert h
    cases (m s).1 <;> exact fun h => h
  · exact hf

theorem setup_pure {α : Type} {e : Engine} {cs0 : List Call} (a : α) :
    Triple (SetupInv e cs0) (pure a) (SetupPost e cs0) :=
  Triple.pure a (fun _ hs => hs)

theorem setup_log {e : Engine} {cs0 : List Call} (msg : Str) (sev : Severity) :
    Triple (SetupInv e cs0) (g_logger_log msg sev) (SetupPost e cs0) := by
  intro s hs
  exact hs

theorem setup_trace_ascii {e : Engine} {cs0 : List Call} (en : Int) :
    Triple (SetupInv e cs0) (set_trace_ascii en) (SetupPost e cs0) := by
  intro s hs
  exact hs

theorem setup_getState {e : Engine} {cs0 : List Call} :
    Triple (SetupInv e cs0) getState (SetupPost e cs0) := by
  intro s hs
  exact hs

theorem setup_checked {e : Engine} {cs0 : List Call} (o : CURLoption) (v : OptVal)
    (ho : isDebugOpt o = false) :
    Triple (SetupInv e cs0) (setopt_checked e o v) (SetupPost e cs0) := by
  intro s hs
  obtain ⟨new, hh, hgood⟩ := hs
  rw [setopt_checked_apply e o v s (cs0 ++ new) hh]
  cases hc : check_result e (e.setopt_ret (cs0 ++ new) o v) with
  | ok u =>
    refine ⟨new ++ [Call.mk o v (e.setopt_ret (cs0 ++ new) o v)], ?_, ?_⟩
    · simp
    · intro c hmem
      rcases List.mem_append.mp hmem with h | h
      · exact hgood c h
      · rw [List.mem_singleton.mp h]
        exact Or.inr hc
  | error msg =>
    exact ⟨new, Call.mk o v (e.setopt_ret (cs0 ++ new) o v), rfl, hgood, ho, hc⟩

theorem setup_unchecked {e : Engine} {cs0 : List Call} (o : CURLoption) (v : OptVal)
    (ho : isDebugOpt o = true) :
    Triple (SetupInv e cs0) (curl_easy_setopt e o v) (SetupPost e cs0) := by
  intro s hs
  obtain ⟨new, hh, hgood⟩ := hs
  rw [curl_easy_setopt_some e o v s (cs0 ++ new) hh]
  refine ⟨new ++ [Call.mk o v (e.setopt_ret (cs0 ++ new) o v)], ?_, ?_⟩
  · simp
  · intro c hmem
    rcases List.mem_append.mp hmem with h | h
    · exact hgood c h
    · rw [List.mem_singleton.mp h]
      exact Or.inl ho

theorem setup_init_ssl_cert (e : Engine) (cs0 : List Call) (d : ssl) :
    Triple (SetupInv e cs0) (init_ssl_cert e d) (SetupPost e cs0) := by
  unfold init_ssl_cert
  apply Triple.ite
  · apply setup_bind
    · apply Triple.ite
      · exact setup_checked _ _ rfl
      · exact setup_pure _
    · intro _
      apply setup_bind
      · exact setup_checked _ _ rfl
      · intro _
        exact setup_log _ _
  · exact setup_pure _

theorem setup_init_ssl_passphrase (e : Engine) (cs0 : List Call) (d : ssl) :
    Triple (SetupInv e cs0) (init_ssl_passphrase e d) (SetupPost e cs0) := by
  unfold init_ssl_passphrase
  apply Triple.ite
  · apply setup_bind
    · exact setup_checked _ _ rfl
    · intro _
      exact setup_log _ _
  · exact setup_pure _

theorem setup_init_ssl_key (e : Engine) (cs0 : List Call) (d : ssl) :
    Triple (SetupInv e cs0) (init_ssl_key e d) (SetupPost e cs0) := by
  unfold init_ssl_key
  apply Triple.ite
  · apply setup_bind
    · apply Triple.ite
      · exact setup_checked _ _ rfl
      · exact setup_pure _
    · intro _
      apply setup_bind
      · exact setup_checked _ _ rfl
      · intro _
        exact setup_log _ _
  · exact setup_pure _

theorem setup_init_ssl_verify (e : Engine) (cs0 : List Call) (d : ssl) :
    Triple (SetupInv e cs0) (init_ssl_verify e d) (SetupPost e cs0) := by
  unfold init_ssl_verify
  apply Triple.ite <;>
  · apply setup_bind
    · exact setup_checked _ _ rfl
    · intro _
      apply setup_bind
      · exact setup_checked _ _ rfl
      · intro _
        exact setup_log _ _

theorem setup_init_ssl_ca (e : Engine) (cs0 : List Call) (d : ssl) :
    Triple (SetupInv e cs0) (init_ssl_ca e d) (SetupPost e cs0) := by
  unfold init_ssl_ca
  apply Triple.ite
  · apply setup_bind
    · exact setup_checked _ _ rfl
    · intro _
      exact setup_log _ _
  · exact setup_pure _

theorem setup_init_ssl (e : Engine) (cs0 : List Call) (ssl_data : Option ssl) :
    Triple (SetupInv e cs0) (init_ssl e ssl_data) (SetupPost e cs0) := by
  unfold init_ssl
  apply setup_bind setup_getState
  intro st
  cases ssl_data with
  | none => exact setup_pure _
  | some d =>
    apply Triple.ite
    · apply setup_bind (setup_init_ssl_cert e cs0 d)
      intro _
      apply setup_bind (setup_init_ssl_passphrase e cs0 d)
      intro _
      apply setup_bind (setup_init_ssl_key e cs0 d)
      intro _
      apply setup_bind (setup_init_ssl_verify e cs0 d)
      intro _
      exact setup_init_ssl_ca e cs0 d
    · exact setup_pure _

theorem setup_init_bt (e : Engine) (cs0 : List Call) (bt : Option bearer_token) :
    Triple (SetupInv e cs0) (init_bt e bt) (SetupPost e cs0) := by
  unfold init_bt
  cases bt with
  | none => exact setup_pure _
  | some b =>
    apply Triple.ite
    · exact setup_checked _ _ rfl
    · exact setup_pure _

theorem setup_enable_debug (e : Engine) (cs0 : List Call) (enable : Bool) :
    Triple (SetupInv e cs0) (enable_debug e enable) (SetupPost e cs0) := by
  unfold enable_debug
  apply setup_bind setup_getState
  intro st
  apply Triple.ite
  · apply setup_bind (setup_unchecked CURLoption.DEBUGFUNCTION _ rfl)
    intro _
    apply setup_bind (setup_unchecked CURLoption.DEBUGDATA _ rfl)
    intro _
    apply setup_bind (setup_trace_ascii _)
    intro _
    apply setup_bind (setup_unchecked CURLoption.VERBOSE _ rfl)
    intro _
    exact setup_pure _
  · exact setup_pure _

theorem setup_init (e : Engine) (cs0 : List Call) (self : sinsp_curl) :
    Triple (SetupInv e cs0) (init e self) (SetupPost e cs0) := by
  unfold init
  refine Triple.bind (fun st s => st = s ∧ SetupInv e cs0 s) ?_ ?_
  · intro s hs
    exact ⟨rfl, hs⟩
  · intro st
    refine Triple.bind (fun _ s => SetupInv e cs0 s) ?_ ?_
    · intro s hs
      obtain ⟨hst, new, hh, hgood⟩ := hs
      subst hst
      have hnone : st.handle.isNone = false := by rw [hh]; rfl
      simp only [hnone, Bool.false_eq_true, if_false, pure_apply]
      exact ⟨new, hh, hgood⟩
    · intro _
      apply setup_bind (setup_checked CURLoption.FORBID_REUSE _ rfl)
      intro _
      apply setup_bind
      · apply Triple.ite
        · exact setup_init_ssl e cs0 _
        · exact setup_pure _
      · intro _
        apply setup_bind
        · apply Triple.ite
          · exact setup_init_bt e cs0 _
          · exact setup_pure _
        · intro _
          exact setup_enable_debug e cs0 _

theorem tolerated_not_rejected {e : Engine} {c : Call}
    (ht : Tolerated e c) (hd : isDebugOpt c.opt = false) (h1 : c.ret ≠ CURLE_OK)
    (h2 : c.ret ≠ CURLE_AGAIN) : False := by
  rcases ht with h | h
  · rw [hd] at h
    cases h
  · rcases ((check_result_ok_iff e c.ret).mp h).2 with h3 | h3
    · exact h1 h3
    · exact h2 h3

theorem setup_post_last (e : Engine) (cs0 : List Call)
    (r : Except Str Unit) (s : State) (h : SetupPost e cs0 r s) :
    ∃ new, s.handle = some (cs0 ++ new)
      ∧ ∀ k (hk : k < new.length), isDebugOpt (new[k]).opt = false →
          (new[k]).ret ≠ CURLE_OK → (new[k]).ret ≠ CURLE_AGAIN →
            k + 1 = new.length ∧ r = check_result e (new[k]).ret := by
  cases r with
  | ok u =>
    obtain ⟨new, hh, hgood⟩ := h
    refine ⟨new, hh, ?_⟩
    intro k hk hd h1 h2
    exact (tolerated_not_rejected (hgood _ (List.getElem_mem hk)) hd h1 h2).elim
  | error msg =>
    obtain ⟨new, c, hh, hgood, _, hc⟩ := h
    refine ⟨new ++ [c], by rw [hh, List.append_assoc], ?_⟩
    intro k hk hd h1 h2
    by_cases hlt : k < new.length
    · have hk1 : (new ++ [c])[k] = new[k] := List.getElem_append_left hlt
      rw [hk1] at hd h1 h2
      exact (tolerated_not_rejected (hgood _ (List.getElem_mem hlt)) hd h1 h2).elim
    · have hlen : (new ++ [c]).length = new.length + 1 := by simp
      have hkeq : k = new.length := by omega
      subst hkeq
      have hk1 : (new ++ [c])[new.length] = c := by simp
      rw [hk1]
      exact ⟨by omega, hc.symm⟩

/-! ## The verification options after `init_ssl` -/

theorem setup_keeps_handle {α : Type} {e : Engine} {m : CurlM α} (E : Str → State → Prop)
    (hE : ∀ msg s, E msg s)
    (hm : ∀ cs0, Triple (SetupInv e cs0) m (SetupPost e cs0)) :
    Triple HasHandle m (onOk (fun _ => HasHandle) E) := by
  intro s hs
  obtain ⟨cs, hh⟩ := hs
  have h := hm cs s ⟨[], by simpa using hh, by simp⟩
  revert h
  cases (m s).1 with
  | ok a =>
    intro h
    obtain ⟨new, hnew, _⟩ := h
    exact ⟨_, hnew⟩
  | error msg => exact fun _ => hE msg _

theorem verify_pair (e : Engine) (hagain : ∀ cs o v, e.setopt_ret cs o v ≠ CURLE_AGAIN)
    (v1 v2 : Int) (msg : Str) (E : Str → State → Prop) (hE : ∀ msg s, E msg s) :
    Triple HasHandle
      (do
        setopt_checked e CURLoption.SSL_VERIFYPEER (OptVal.long v1)
        setopt_checked e CURLoption.SSL_VERIFYHOST (OptVal.long v2)
        g_logger_log msg Severity.SEV_DEBUG : CurlM Unit)
      (onOk (fun _ s => ∃ cs1, s.handle = some cs1
          ∧ getopt cs1 CURLoption.SSL_VERIFYPEER = some (OptVal.long v1)
          ∧ getopt cs1 CURLoption.SSL_VERIFYHOST = some (OptVal.long v2)) E) := by
  intro s hs
  obtain ⟨cs, hh⟩ := hs
  simp only [bind_apply, setopt_checked_apply e _ _ s cs hh]
  cases h1 : check_result e (e.setopt_ret cs CURLoption.SSL_VERIFYPEER (OptVal.long v1)) with
  | error m1 => exact hE _ _
  | ok u1 =>
    simp only []
    rw [setopt_checked_apply e _ _ _ _ rfl]
    cases h2 : check_result e (e.setopt_ret
        (cs ++ [Call.mk CURLoption.SSL_VERIFYPEER (OptVal.long v1)
          (e.setopt_ret cs CURLoption.SSL_VERIFYPEER (OptVal.long v1))])
        CURLoption.SSL_VERIFYHOST (OptVal.long v2)) with
    | error m2 => exact hE _ _
    | ok u2 =>
      have r1 : e.setopt_ret cs CURLoption.SSL_VERIFYPEER (OptVal.long v1) = CURLE_OK := by
        rcases ((check_result_ok_iff e _).mp h1).2 with h | h
        · exact h
        · exact (hagain _ _ _ h).elim
      have r2 : e.setopt_ret
          (cs ++ [Call.mk CURLoption.SSL_VERIFYPEER (OptVal.long v1)
            (e.setopt_ret cs CURLoption.SSL_VERIFYPEER (OptVal.long v1))])
          CURLoption.SSL_VERIFYHOST (OptVal.long v2) = CURLE_OK := by
        rcases ((check_result_ok_iff e _).mp h2).2 with h | h
        · exact h
        · exact (hagain _ _ _ h).elim
      simp only [g_logger_log_apply]
      refine ⟨_, rfl, ?_, ?_⟩
      · rw [getopt_append_one, getopt_append_one]
        simp [r1]
      · rw [getopt_append_one]
        simp [r2]

theorem verify_init_ssl_verify (e : Engine) (d : ssl)
    (hagain : ∀ cs o v, e.setopt_ret cs o v ≠ CURLE_AGAIN)
    (E : Str → State → Prop) (hE : ∀ msg s, E msg s) :
    Triple HasHandle (init_ssl_verify e d) (onOk (fun _ => VerifySet d.m_verify_peer) E) := by
  unfold init_ssl_verify
  cases hv : d.m_verify_peer with
  | true =>
    simp only [if_true]
    exact verify_pair e hagain 1 2 _ E hE
  | false =>
    simp only [Bool.false_eq_true, if_false]
    exact verify_pair e hagain 0 0 _ E hE

theorem verify_init_ssl_ca (e : Engine) (d : ssl) (vp : Bool)
    (E : Str → State → Prop) (hE : ∀ msg s, E msg s) :
    Triple (VerifySet vp) (init_ssl_ca e d) (onOk (fun _ => VerifySet vp) E) := by
  intro s hs
  obtain ⟨cs, hh, hp, hhost⟩ := hs
  unfold init_ssl_ca
  by_cases hca : d.m_ca_cert ≠ []
  · rw [if_pos hca]
    simp only [bind_apply, setopt_checked_apply e _ _ s cs hh]
    cases check_result e (e.setopt_ret cs CURLoption.CAINFO (OptVal.str (c_str d.m_ca_cert))) with
    | error m => exact hE _ _
    | ok u =>
      simp only [g_logger_log_apply]
      refine ⟨_, rfl, ?_, ?_⟩
      · rw [getopt_append_one]
        simpa using hp
      · rw [getopt_append_one]
        simpa using hhost
  · rw [if_neg hca]
    exact ⟨cs, hh, hp, hhost⟩

theorem verify_init_ssl (e : Engine) (d : ssl)
    (hagain : ∀ cs o v, e.setopt_ret cs o v ≠ CURLE_AGAIN) :
    Triple HasHandle (init_ssl e (some d)) (fun r s =>
      r = Except.ok () → VerifySet d.m_verify_peer s) := by
  have hE : ∀ (msg : Str) (s : State),
      (fun (msg : Str) (s : State) =>
        (Except.error msg : Except Str Unit) = Except.ok () → VerifySet d.m_verify_peer s) msg s := by
    intro msg s h
    cases h
  have hX : Triple HasHandle (do
        init_ssl_cert e d
        init_ssl_passphrase e d
        init_ssl_key e d
        init_ssl_verify e d
        init_ssl_ca e d : CurlM Unit)
      (fun r s => r = Except.ok () → VerifySet d.m_verify_peer s) := by
    refine Triple.bind (fun _ => HasHandle)
      (setup_keeps_handle _ hE (fun cs0 => setup_init_ssl_cert e cs0 d)) ?_
    intro _
    refine Triple.bind (fun _ => HasHandle)
      (setup_keeps_handle _ hE (fun cs0 => setup_init_ssl_passphrase e cs0 d)) ?_
    intro _
    refine Triple.bind (fun _ => HasHandle)
      (setup_keeps_handle _ hE (fun cs0 => setup_init_ssl_key e cs0 d)) ?_
    intro _
    refine Triple.bind (fun _ => VerifySet d.m_verify_peer)
      (verify_init_ssl_verify e d hagain _ hE) ?_
    intro _
    intro s1 hs1
    have h := verify_init_ssl_ca e d d.m_verify_peer _ hE s1 hs1
    revert h
    cases (init_ssl_ca e d s1).1 with
    | ok a => exact fun h _ => h
    | error msg => exact fun _ h => by cases h
  unfold init_ssl
  refine Triple.bind (fun st s => st = s ∧ HasHandle s) ?_ ?_
  · intro s hs
    exact ⟨rfl, hs⟩
  · intro st
    intro s hs
    obtain ⟨hst, hh⟩ := hs
    subst hst
    have hsome : st.handle.isSome = true := by
      obtain ⟨cs, hcs⟩ := hh
      rw [hcs]
      rfl
    simp only [hsome, if_true]
    exact hX st hh

/-! ## The bearer token -/

theorem split_line (rest : Str) :
    (rest.dropWhile (fun ch => ch != '\n') = [] ∧ rest.takeWhile (fun ch => ch != '\n') = rest)
    ∨ ∃ tl, rest.dropWhile (fun ch => ch != '\n') = '\n' :: tl
        ∧ rest = rest.takeWhile (fun ch => ch != '\n') ++ '\n' :: tl := by
  induction rest with
  | nil => left; simp
  | cons a l ih =>
    by_cases ha : a = '\n'
    · right
      exact ⟨l, by simp [ha], by simp [ha]⟩
    · have hp : (a != '\n') = true := by simpa using ha
      rcases ih with ⟨h1, h2⟩ | ⟨tl, h1, h2⟩
      · left
        simp only [List.dropWhile_cons, List.takeWhile_cons, hp, if_true]
        exact ⟨h1, by rw [h2]⟩
      · right
        refine ⟨tl, ?_, ?_⟩
        · simp only [List.dropWhile_cons, hp, if_true]
          exact h1
        · simp only [List.takeWhile_cons, hp, if_true, List.cons_append]
          rw [← h2]

theorem takeWhile_no_newline (rest : Str) :
    ∀ ch ∈ rest.takeWhile (fun ch => ch != '\n'), ch ≠ '\n' := by
  intro ch hch
  have := List.mem_takeWhile_imp hch
  simpa using this

theorem terminated_nil : terminated [] = [] := by
  simp [terminated]

theorem terminated_no_newline (l : Str) (hne : l ≠ []) (h : ∀ ch ∈ l, ch ≠ '\n') :
    terminated l = l ++ ['\n'] := by
  unfold terminated
  have h1 : ¬ (l = [] ∨ l.getLast? = some '\n') := by
    rintro (h2 | h2)
    · exact hne h2
    · exact h _ (List.mem_of_getLast?_eq_some h2) rfl
  rw [if_neg h1]

theorem terminated_line (l tl : Str) :
    terminated (l ++ '\n' :: tl) = l ++ ['\n'] ++ terminated tl := by
  cases tl with
  | nil =>
    rw [terminated_nil]
    unfold terminated
    simp
  | cons b tl1 =>
    unfold terminated
    have h1 : (l ++ '\n' :: b :: tl1).getLast? = (b :: tl1).getLast? := by
      rw [List.getLast?_append, List.getLast?_cons_cons,
        List.getLast?_eq_getLast (b :: tl1) (List.cons_ne_nil _ _)]
      rfl
    rw [h1]
    by_cases h2 : (b :: tl1).getLast? = some '\n'
    · simp [h2]
    · simp [h2]

theorem stringize_loop_eq (fuel : Nat) : ∀ (rest content : Str), rest.length ≤ fuel →
    stringize_loop fuel rest content = some (content ++ terminated rest) := by
  induction fuel with
  | zero =>
    intro rest content hlen
    have : rest = [] := List.length_eq_zero.mp (by omega)
    subst this
    unfold stringize_loop
    simp [getline, terminated_nil]
  | succ f ih =>
    intro rest content hlen
    by_cases hrest : rest = []
    · subst hrest
      unfold stringize_loop
      simp [getline, terminated_nil]
    · unfold stringize_loop
      simp only [getline, hrest, if_false]
      rcases split_line rest with ⟨h1, h2⟩ | ⟨tl, h1, h2⟩
      · rw [h1, h2]
        simp only [List.drop_nil]
        rw [ih [] _ (by simp)]
        have hnl : ∀ ch ∈ rest, ch ≠ '\n' := by
          rw [← h2]
          exact takeWhile_no_newline rest
        rw [terminated_no_newline rest hrest hnl, terminated_nil]
        simp
      · rw [h1]
        simp only [List.drop_succ_cons, List.drop_zero]
        have hlen2 : tl.length ≤ f := by
          have := congrArg List.length h2
          simp at this
          omega
        rw [ih tl _ hlen2]
        conv_rhs => rw [h2, terminated_line]
        simp

theorem stringize_file_eq (content : Str) :
    stringize_file (some content) = some (terminated content) := by
  unfold stringize_file
  simp [stringize_loop_eq content.length content [] (le_refl _)]

theorem strip_loop_eq (fuel : Nat) : ∀ tok : Str, tok.length ≤ fuel →
    strip_loop fuel tok = some (tok.rdropWhile isCRLF) := by
  induction fuel with
  | zero =>
    intro tok hlen
    have : tok = [] := List.length_eq_zero.mp (by omega)
    subst this
    unfold strip_loop
    simp
  | succ f ih =>
    intro tok hlen
    rcases List.eq_nil_or_concat' tok with h | ⟨L, b, h⟩
    · subst h
      unfold strip_loop
      simp
    · subst h
      unfold strip_loop
      rw [List.rdropWhile_concat]
      have hlast : (L ++ [b]).getLast? = some b := by simp
      have hdrop : (L ++ [b]).dropLast = L := by simp
      have hlen1 : L.length ≤ f := by simp at hlen; omega
      rw [hlast, hdrop]
      by_cases hb : isCRLF b = true
      · have hb2 : b = '\r' ∨ b = '\n' := by
          simpa [isCRLF] using hb
        have hc : (L ++ [b]).length ≠ 0 ∧ (some b = some '\r' ∨ some b = some '\n') := by
          refine ⟨by simp, ?_⟩
          rcases hb2 with h | h
          · left; rw [h]
          · right; rw [h]
        rw [if_pos hc, if_pos hb]
        exact ih L hlen1
      · have hb2 : ¬ (b = '\r' ∨ b = '\n') := by
          simpa [isCRLF] using hb
        have hc : ¬ ((L ++ [b]).length ≠ 0 ∧ (some b = some '\r' ∨ some b = some '\n')) := by
          rintro ⟨_, h | h⟩
          · exact hb2 (Or.inl (Option.some.inj h))
          · exact hb2 (Or.inr (Option.some.inj h))
        rw [if_neg hc, if_neg hb]

theorem c_str_eq_self (s : Str) (h : ∀ ch ∈ s, ch ≠ Char.ofNat 0) : c_str s = s := by
  unfold c_str
  rw [List.takeWhile_eq_self_iff]
  intro ch hch
  simpa using h ch hch

theorem bearer_token_make_eq (content : Str) :
    bearer_token.make (some content)
      = some (if (terminated content).rdropWhile isCRLF ≠ [] then
          bearer_token.mk ((terminated content).rdropWhile isCRLF)
            [c_str ("Authorization: Bearer ".toList ++ (terminated content).rdropWhile isCRLF)]
        else bearer_token.mk [] []) := by
  unfold bearer_token.make
  rw [stringize_file_eq]
  simp only [strip_loop_eq _ _ (le_refl _)]
  by_cases h : (terminated content).rdropWhile isCRLF = []
  · simp [h]
  · have h2 : ((terminated content).rdropWhile isCRLF).length ≠ 0 := by
      intro h3
      exact h (List.length_eq_zero.mp h3)
    simp [h, h2, curl_slist_append]

theorem rdropWhile_token (token tail : Str) (hne : token ≠ [])
    (hr : token.getLast? ≠ some '\r') (hn : token.getLast? ≠ some '\n')
    (htail : ∀ ch ∈ tail, isCRLF ch = true) :
    (token ++ tail).rdropWhile isCRLF = token := by
  induction tail using List.reverseRecOn with
  | nil =>
    rcases List.eq_nil_or_concat' token with h | ⟨L, b, h⟩
    · exact (hne h).elim
    · subst h
      rw [List.append_nil, List.rdropWhile_concat]
      have hb : ¬ isCRLF b = true := by
        intro hb
        have hb2 : b = '\r' ∨ b = '\n' := by simpa [isCRLF] using hb
        rcases hb2 with h | h
        · exact hr (by simp [h])
        · exact hn (by simp [h])
      rw [if_neg hb]
  | append_singleton l a ih =>
    rw [← List.append_assoc, List.rdropWhile_concat]
    have ha : isCRLF a = true := htail a (by simp)
    rw [if_pos ha]
    exact ih (fun ch hch => htail ch (by simp [hch]))

/-! ## The claims on the fetch, the setup and the token -/

/-- C1. On a client with a handle, when libcurl accepts every option call and
answers the status query, `get_data(std::ostream&)` returns normally, and it returns
true if and only if `curl_easy_perform` returned `CURLE_OK` and the HTTP status is
below 400; it returns false for every other transfer code and for every status of
400 or more. -/
theorem get_data_true_iff (e : Engine) (self : sinsp_curl) (s : State) (cs : List Call)
    (hs : s.handle = some cs) (hlast : CURLE_OK < e.CURL_LAST)
    (hset : ∀ cs o v, e.setopt_ret cs o v = CURLE_OK) (hinfo : e.getinfo_ret = CURLE_OK) :
    ∃ b, (get_data e self s).1 = Except.ok b
      ∧ (b = true ↔ e.perform_ret = CURLE_OK ∧ e.response_code < 400)
      ∧ (e.perform_ret ≠ CURLE_OK → b = false)
      ∧ (e.response_code ≥ 400 → b = false) := by
  obtain ⟨h, os, log, err, ta⟩ := s
  simp only at hs
  subst hs
  refine ⟨_, get_data_result e self hlast hset hinfo cs os log err ta, ?_, ?_, ?_⟩
  · simp
  · intro h1
    simp [h1]
  · intro h1
    have h2 : ¬ e.response_code < 400 := by omega
    simp [h2]

/-- C1, witness: a transfer that ends with `CURLE_OK` and status 404. -/
theorem get_data_true_iff_witness :
    (freshState.handle = some [] ∧ CURLE_OK < (acceptingEngine [] 0 404).CURL_LAST
      ∧ (acceptingEngine [] 0 404).getinfo_ret = CURLE_OK)
    ∧ ∃ b, (get_data (acceptingEngine [] 0 404) plainClient freshState).1 = Except.ok b
      ∧ (b = true ↔ (acceptingEngine [] 0 404).perform_ret = CURLE_OK
          ∧ (acceptingEngine [] 0 404).response_code < 400)
      ∧ ((acceptingEngine [] 0 404).perform_ret ≠ CURLE_OK → b = false)
      ∧ ((acceptingEngine [] 0 404).response_code ≥ 400 → b = false) :=
  ⟨⟨rfl, by decide, rfl⟩,
    get_data_true_iff (acceptingEngine [] 0 404) plainClient freshState [] rfl (by decide)
      (fun _ _ _ => rfl) rfl⟩

/-- C2. On a client with a handle and an empty stream, when libcurl accepts every
option call and hands `write_data` buffers of `size * nmemb` bytes: each call of
`write_data` appends its buffer and returns `size * nmemb`; after `get_data` the
stream holds exactly the chunks in delivery order when the transfer succeeded, and
the chunks followed by `curl_easy_strerror` of the code when it failed. -/
theorem get_data_sink (e : Engine) (self : sinsp_curl) (s : State) (cs : List Call)
    (hs : s.handle = some cs) (hempty : s.os = []) (hlast : CURLE_OK < e.CURL_LAST)
    (hset : ∀ cs o v, e.setopt_ret cs o v = CURLE_OK)
    (hwf : ∀ ch ∈ e.chunks, ch.ptr.length = ch.size * ch.nmemb ∧ ch.size * ch.nmemb < SIZE_MOD) :
    (∀ ch ∈ e.chunks, ∀ st : State, write_data ch.ptr ch.size ch.nmemb st
        = (Except.ok (ch.size * ch.nmemb), { st with os := st.os ++ ch.ptr }))
    ∧ (e.perform_ret = CURLE_OK →
        (get_data e self s).2.os = (e.chunks.map Chunk.ptr).flatten)
    ∧ (e.perform_ret ≠ CURLE_OK →
        (get_data e self s).2.os
          = (e.chunks.map Chunk.ptr).flatten ++ e.strerror e.perform_ret) := by
  obtain ⟨h, os, log, err, ta⟩ := s
  simp only at hs hempty
  subst hs
  subst hempty
  have hos := get_data_os e self hlast hset cs [] log err ta
  rw [chunk_data_exact e.chunks hwf] at hos
  refine ⟨?_, ?_, ?_⟩
  · intro ch hch st
    exact write_data_exact ch.ptr ch.size ch.nmemb st (hwf ch hch).1 (hwf ch hch).2
  · intro h1
    rw [hos]
    simp [h1]
  · intro h1
    rw [hos]
    simp [h1]

/-- C2, witness: two chunks `he`, `llo` and the transfer code 28. -/
theorem get_data_sink_witness :
    (freshState.handle = some [] ∧ freshState.os = []
      ∧ CURLE_OK < (acceptingEngine [Chunk.mk "he".toList 1 2, Chunk.mk "llo".toList 1 3] 28 0).CURL_LAST)
    ∧ (get_data (acceptingEngine [Chunk.mk "he".toList 1 2, Chunk.mk "llo".toList 1 3] 28 0)
        plainClient freshState).2.os = "hellocurl error 28".toList :=
  ⟨⟨rfl, rfl, by decide⟩,
    ((get_data_sink (acceptingEngine [Chunk.mk "he".toList 1 2, Chunk.mk "llo".toList 1 3] 28 0)
      plainClient freshState [] rfl rfl (by decide) (fun _ _ _ => rfl)
      (by decide)).2.2 (by decide)).trans (by decide)⟩

/-- C3, counterexample. A token with a NUL inside: the file `a\0b\n` gives the
stored token `a\0b`, but the header entry handed to `curl_slist_append` through
`c_str()` ends at the NUL and is `Authorization: Bearer a`, not the prefix followed
by the token. -/
theorem bearer_token_nul_truncated :
    bearer_token.make (some "a\x00b\n".toList)
        = some (bearer_token.mk "a\x00b".toList ["Authorization: Bearer a".toList])
    ∧ bearer_token.make (some "a\x00b\n".toList)
        ≠ some (bearer_token.mk "a\x00b".toList
            ["Authorization: Bearer ".toList ++ "a\x00b".toList]) := by
  decide

/-- C3, amended. For every non-empty token without a NUL character whose last
character is neither CR nor LF, and for each of the file contents token, token + LF and
token + CR LF, the constructor stores the token itself and a single header entry
equal to `Authorization: Bearer ` followed by the token; newlines inside the token
are kept. -/
theorem bearer_token_header (token tail : Str) (hne : token ≠ [])
    (hr : token.getLast? ≠ some '\r') (hn : token.getLast? ≠ some '\n')
    (hnul : ∀ ch ∈ token, ch ≠ Char.ofNat 0)
    (htail : tail = [] ∨ tail = ['\n'] ∨ tail = ['\r', '\n']) :
    bearer_token.make (some (token ++ tail))
      = some (bearer_token.mk token ["Authorization: Bearer ".toList ++ token]) := by
  have hterm : ∃ t2, terminated (token ++ tail) = token ++ t2 ∧ ∀ ch ∈ t2, isCRLF ch = true := by
    rcases htail with h | h | h
    · subst h
      refine ⟨['\n'], ?_, by decide⟩
      unfold terminated
      have h1 : ¬ (token ++ [] = [] ∨ (token ++ []).getLast? = some '\n') := by
        simp only [List.append_nil]
        rintro (h2 | h2)
        · exact hne h2
        · exact hn h2
      rw [if_neg h1, List.append_nil]
    · subst h
      refine ⟨['\n'], ?_, by decide⟩
      unfold terminated
      simp
    · subst h
      refine ⟨['\r', '\n'], ?_, by decide⟩
      unfold terminated
      have h1 : (token ++ ['\r', '\n']).getLast? = some '\n' := by
        rw [List.getLast?_append]
        rfl
      simp [h1]
  obtain ⟨t2, ht2, hcr⟩ := hterm
  rw [bearer_token_make_eq, ht2, rdropWhile_token token t2 hne hr hn hcr, if_pos hne]
  have hpre : ∀ ch ∈ "Authorization: Bearer ".toList, ch ≠ Char.ofNat 0 := by decide
  have hhdr : ∀ ch ∈ "Authorization: Bearer ".toList ++ token, ch ≠ Char.ofNat 0 := by
    intro ch hch
    rcases List.mem_append.mp hch with h | h
    · exact hpre ch h
    · exact hnul ch h
  rw [c_str_eq_self _ hhdr]

/-- C3, witness: a token with a newline inside, in a file ending in CR LF. -/
theorem bearer_token_header_witness :
    ("a.b\nc".toList ≠ [] ∧ "a.b\nc".toList.getLast? ≠ some '\r'
      ∧ "a.b\nc".toList.getLast? ≠ some '\n')
    ∧ bearer_token.make (some ("a.b\nc".toList ++ ['\r', '\n']))
      = some (bearer_token.mk "a.b\nc".toList
          ["Authorization: Bearer ".toList ++ "a.b\nc".toList]) :=
  ⟨by decide,
    bearer_token_header "a.b\nc".toList ['\r', '\n'] (by decide) (by decide) (by decide)
      (by decide) (Or.inr (Or.inr rfl))⟩

/-- C4, counterexample. A token file holding one space: the constructor keeps the
space as the token and builds the header `Authorization: Bearer ` + space, which
`init_bt` attaches to the handle. -/
theorem bearer_token_space_kept :
    bearer_token.make (some " ".toList)
        = some (bearer_token.mk " ".toList ["Authorization: Bearer  ".toList])
    ∧ (init_bt (acceptingEngine [] 0 200)
          (some (bearer_token.mk " ".toList ["Authorization: Bearer  ".toList])) freshState).2.handle
        = some [Call.mk CURLoption.HTTPHEADER (OptVal.slist ["Authorization: Bearer  ".toList])
            CURLE_OK] := by
  decide

/-- C4, amended. For every token file that cannot be read, is empty, or consists
only of CR and LF characters, the constructor leaves the token empty and the header
list NULL, and `init_bt` then makes no call on the handle: no Authorization header
is attached. -/
theorem bearer_token_blank (content : Str) (h : ∀ ch ∈ content, ch = '\r' ∨ ch = '\n') :
    bearer_token.make none = some (bearer_token.mk [] [])
    ∧ bearer_token.make (some content) = some (bearer_token.mk [] [])
    ∧ ∀ (e : Engine) (s : State),
        init_bt e (some (bearer_token.mk [] [])) s = (Except.ok (), s) := by
  refine ⟨by decide, ?_, ?_⟩
  · have hall : ∀ ch ∈ terminated content, isCRLF ch = true := by
      intro ch hch
      unfold terminated at hch
      split at hch
      · rcases h ch hch with h1 | h1 <;> simp [h1, isCRLF]
      · rcases List.mem_append.mp hch with h1 | h1
        · rcases h ch h1 with h2 | h2 <;> simp [h2, isCRLF]
        · rw [List.mem_singleton.mp h1]
          rfl
    have hnil : (terminated content).rdropWhile isCRLF = [] :=
      List.rdropWhile_eq_nil_iff.mpr hall
    rw [bearer_token_make_eq, hnil]
    simp
  · intro e s
    simp [init_bt]

/-- C4, witness: a file of CR LF LF. -/
theorem bearer_token_blank_witness :
    (∀ ch ∈ "\r\n\n".toList, ch = '\r' ∨ ch = '\n')
    ∧ bearer_token.make (some "\r\n\n".toList) = some (bearer_token.mk [] []) :=
  ⟨by decide, (bearer_token_blank "\r\n\n".toList (by decide)).2.1⟩

/-- C8. On a handle, with a libcurl whose `curl_easy_setopt` never answers
`CURLE_AGAIN`, whenever `init_ssl` returns without throwing the two verification
options in effect are SSL_VERIFYPEER = 1 and SSL_VERIFYHOST = 2 if `verify_peer` is
set, and SSL_VERIFYPEER = 0 and SSL_VERIFYHOST = 0 if it is not, whatever the other
credential fields are. -/
theorem init_ssl_verification (e : Engine) (d : ssl) (s : State) (cs : List Call)
    (hs : s.handle = some cs) (hagain : ∀ cs o v, e.setopt_ret cs o v ≠ CURLE_AGAIN)
    (hok : (init_ssl e (some d) s).1 = Except.ok ()) :
    ∃ cs1, (init_ssl e (some d) s).2.handle = some cs1
      ∧ (d.m_verify_peer = true →
          getopt cs1 CURLoption.SSL_VERIFYPEER = some (OptVal.long 1)
          ∧ getopt cs1 CURLoption.SSL_VERIFYHOST = some (OptVal.long 2))
      ∧ (d.m_verify_peer = false →
          getopt cs1 CURLoption.SSL_VERIFYPEER = some (OptVal.long 0)
          ∧ getopt cs1 CURLoption.SSL_VERIFYHOST = some (OptVal.long 0)) := by
  obtain ⟨cs1, h1, h2, h3⟩ := verify_init_ssl e d hagain s ⟨cs, hs⟩ hok
  refine ⟨cs1, h1, ?_, ?_⟩
  · intro hv
    rw [hv] at h2 h3
    exact ⟨h2, h3⟩
  · intro hv
    rw [hv] at h2 h3
    exact ⟨h2, h3⟩

/-- C8, witness: the credentials `sampleSsl` on a libcurl that accepts every option. -/
theorem init_ssl_verification_witness :
    (freshState.handle = some []
      ∧ (init_ssl (acceptingEngine [] 0 200) (some sampleSsl) freshState).1 = Except.ok ())
    ∧ ∃ cs1, (init_ssl (acceptingEngine [] 0 200) (some sampleSsl) freshState).2.handle = some cs1
      ∧ (sampleSsl.m_verify_peer = true →
          getopt cs1 CURLoption.SSL_VERIFYPEER = some (OptVal.long 1)
          ∧ getopt cs1 CURLoption.SSL_VERIFYHOST = some (OptVal.long 2))
      ∧ (sampleSsl.m_verify_peer = false →
          getopt cs1 CURLoption.SSL_VERIFYPEER = some (OptVal.long 0)
          ∧ getopt cs1 CURLoption.SSL_VERIFYHOST = some (OptVal.long 0)) :=
  ⟨⟨rfl, by decide⟩,
    init_ssl_verification (acceptingEngine [] 0 200) sampleSsl freshState [] rfl
      (fun _ _ _ => (by decide : CURLE_OK ≠ CURLE_AGAIN)) (by decide)⟩

/-- The checked option calls of `init`. With `CURLE_AGAIN` below `CURL_LAST`:
`check_error` returns normally exactly when the value is `CURLE_OK` or `CURLE_AGAIN`, throws
`Invalid CURL return value:<ret>` when it is `CURL_LAST` or more, and throws
`Error: <curl error text>` for every other value.  In `init` on a handle, every
option call made through `check_error` (all but the three of `enable_debug`) that
libcurl answers with a code other than these two is the last call made on the
handle, and `init` throws the exception of `check_error` for that code. -/
theorem check_error_aborts_setup (e : Engine) (hlast : CURLE_AGAIN < e.CURL_LAST)
    (ret : Nat) (self : sinsp_curl) (s : State) (cs0 : List Call) (hs : s.handle = some cs0) :
    (((check_error e ret s).1 = Except.ok () ↔ ret = CURLE_OK ∨ ret = CURLE_AGAIN)
      ∧ (ret ≥ e.CURL_LAST → check_error e ret s
          = (Except.error ("Invalid CURL return value:".toList ++ (toString ret).toList), s))
      ∧ (ret < e.CURL_LAST → ret ≠ CURLE_OK → ret ≠ CURLE_AGAIN → check_error e ret s
          = (Except.error ("Error: ".toList ++ e.strerror ret), s)))
    ∧ ∃ new, (init e self s).2.handle = some (cs0 ++ new)
        ∧ ∀ k (hk : k < new.length), isDebugOpt (new[k]).opt = false →
            (new[k]).ret ≠ CURLE_OK → (new[k]).ret ≠ CURLE_AGAIN →
              k + 1 = new.length ∧ (init e self s).1 = check_result e (new[k]).ret
                ∧ check_result e (new[k]).ret ≠ Except.ok () := by
  refine ⟨⟨?_, ?_, ?_⟩, ?_⟩
  · rw [check_error_apply]
    simp only []
    rw [check_result_ok_iff]
    constructor
    · exact fun h => h.2
    · intro h
      refine ⟨?_, h⟩
      rcases h with h | h
      · rw [h]
        exact Nat.lt_trans (by decide) hlast
      · rw [h]
        exact hlast
  · intro h
    rw [check_error_apply, check_result_invalid e ret h]
  · intro h1 h2 h3
    rw [check_error_apply, check_result_fail e ret h1 h2 h3]
  · have hpost := setup_init e cs0 self s ⟨[], by simpa using hs, by simp⟩
    obtain ⟨new, hnew, hlastcall⟩ := setup_post_last e cs0 _ _ hpost
    refine ⟨new, hnew, ?_⟩
    intro k hk hd h1 h2
    obtain ⟨h3, h4⟩ := hlastcall k hk hd h1 h2
    refine ⟨h3, h4, ?_⟩
    intro h5
    rcases ((check_result_ok_iff e _).mp h5).2 with h6 | h6
    · exact h1 h6
    · exact h2 h6

/-- An instance of the above: a libcurl that rejects CURLOPT_SSLCERT; `init` stops there. -/
theorem check_error_aborts_setup_witness :
    (CURLE_AGAIN < (rejectingEngine CURLoption.SSLCERT).CURL_LAST ∧ freshState.handle = some [])
    ∧ init (rejectingEngine CURLoption.SSLCERT) tlsClient freshState
        = (Except.error "Error: curl error 48".toList,
            State.mk (some [Call.mk CURLoption.FORBID_REUSE (OptVal.long 1) CURLE_OK,
              Call.mk CURLoption.SSLCERTTYPE (OptVal.str "PEM".toList) CURLE_OK,
              Call.mk CURLoption.SSLCERT (OptVal.str "/etc/client.crt".toList) 48]) [] [] [] 0)
    ∧ ∃ new, (init (rejectingEngine CURLoption.SSLCERT) tlsClient freshState).2.handle
          = some ([] ++ new)
        ∧ ∀ k (hk : k < new.length), isDebugOpt (new[k]).opt = false →
            (new[k]).ret ≠ CURLE_OK → (new[k]).ret ≠ CURLE_AGAIN →
              k + 1 = new.length
                ∧ (init (rejectingEngine CURLoption.SSLCERT) tlsClient freshState).1
                    = check_result (rejectingEngine CURLoption.SSLCERT) (new[k]).ret
                ∧ check_result (rejectingEngine CURLoption.SSLCERT) (new[k]).ret ≠ Except.ok () :=
  ⟨⟨by decide, rfl⟩, by decide,
    (check_error_aborts_setup (rejectingEngine CURLoption.SSLCERT) (by decide) 48 tlsClient
      freshState [] rfl).2⟩

/-- C10, the code at the failing input. When `shm_unlink` returns 0 (the unlink
succeeded) `unmemorize_file` logs the `unlink error` warning; when it returns -1
(the unlink failed) it logs nothing. -/
theorem unmemorize_file_warns_on_success :
    (unmemorize_file (posixReturning 0 "Success".toList) "/client.crt~".toList freshState).2.log
        = [(Severity.SEV_WARNING, "Memory file [/client.crt~] unlink error: Success".toList)]
    ∧ (unmemorize_file (posixReturning (-1) "No such file or directory".toList)
          "/client.crt~".toList freshState).2.log = [] := by
  decide

/-! ## Formatting -/

theorem emit_eq_self (x : Str) (hlen : x.length ≤ 1023) (hnul : ∀ ch ∈ x, ch ≠ Char.ofNat 0) :
    emit x = x := by
  unfold emit
  have h1 : x.take (DBG_BUF_SIZE - 1) = x := List.take_of_length_le (by simpa [DBG_BUF_SIZE] using hlen)
  rw [h1]
  exact c_str_eq_self x hnul

theorem toDigitsCore_all (base : Nat) (hb : 0 < base) (P : Char → Prop)
    (hP : ∀ d, d < base → P (Nat.digitChar d)) :
    ∀ (fuel n : Nat) (acc : List Char), (∀ ch ∈ acc, P ch) →
      ∀ ch ∈ Nat.toDigitsCore base fuel n acc, P ch := by
  intro fuel
  induction fuel with
  | zero =>
    intro n acc hacc ch hch
    simp only [Nat.toDigitsCore] at hch
    exact hacc ch hch
  | succ f ih =>
    intro n acc hacc ch hch
    simp only [Nat.toDigitsCore] at hch
    have hacc2 : ∀ c ∈ Nat.digitChar (n % base) :: acc, P c := by
      intro c hc
      rcases List.mem_cons.mp hc with h | h
      · rw [h]
        exact hP _ (Nat.mod_lt _ hb)
      · exact hacc c h
    split at hch
    · exact hacc2 ch hch
    · exact ih _ _ hacc2 ch hch

theorem toDigits_all (base : Nat) (hb : 0 < base) (P : Char → Prop)
    (hP : ∀ d, d < base → P (Nat.digitChar d)) (n : Nat) :
    ∀ ch ∈ Nat.toDigits base n, P ch := by
  unfold Nat.toDigits
  exact toDigitsCore_all base hb P hP _ _ [] (by simp)

theorem digitChar_lowerHex : ∀ d, d < 16 → isLowerHex (Nat.digitChar d) = true := by
  decide

theorem digitChar_digit : ∀ d, d < 10 → (Nat.digitChar d).isDigit = true := by
  decide

theorem lowerHex_ne_nul (ch : Char) (h : isLowerHex ch = true) : ch ≠ Char.ofNat 0 := by
  intro h0
  rw [h0] at h
  revert h
  decide

theorem digit_lowerHex (ch : Char) (h : ch.isDigit = true) : isLowerHex ch = true := by
  unfold isLowerHex
  rw [h]
  rfl

theorem zeroPad_length (k : Nat) (ds : Str) : (zeroPad k ds).length = max k ds.length := by
  unfold zeroPad
  rw [List.length_append, List.length_replicate]
  omega

theorem zeroPad_all (k : Nat) (ds : Str) (P : Char → Prop) (h0 : P '0') (h : ∀ ch ∈ ds, P ch) :
    ∀ ch ∈ zeroPad k ds, P ch := by
  intro ch hch
  unfold zeroPad at hch
  rcases List.mem_append.mp hch with h1 | h1
  · rw [(List.mem_replicate.mp h1).2]
    exact h0
  · exact h ch h1

theorem toDigits_pos_length (base n : Nat) : 0 < (Nat.toDigits base n).length := by
  unfold Nat.toDigits
  have key : ∀ (fuel m : Nat) (acc : List Char),
      0 < (Nat.toDigitsCore base (fuel + 1) m acc).length := by
    intro fuel
    induction fuel with
    | zero =>
      intro m acc
      simp only [Nat.toDigitsCore]
      split <;> simp
    | succ f ih =>
      intro m acc
      rw [Nat.toDigitsCore]
      split
      · simp
      · exact ih _ _
  exact key n n []

theorem toDigits_length_le (base : Nat) (hb : 2 ≤ base) (n e : Nat) (hn : n < base ^ e)
    (he : 0 < e) : (Nat.toDigits base n).length ≤ e := by
  unfold Nat.toDigits
  exact Nat.toDigitsCore_length base hb (n + 1) n e hn he

theorem fmt_lx_all (prec : Nat) (v : Int) : ∀ ch ∈ fmt_lx prec v, isLowerHex ch = true := by
  unfold fmt_lx
  exact zeroPad_all _ _ (fun ch => isLowerHex ch = true) (by decide)
    (toDigits_all 16 (by decide) _ digitChar_lowerHex _)

theorem fmt_lx_length_ge (prec : Nat) (v : Int) : prec ≤ (fmt_lx prec v).length := by
  unfold fmt_lx
  rw [zeroPad_length]
  omega

theorem fmt_lx_length_le (prec : Nat) (v : Int) (hp : prec ≤ 16) :
    (fmt_lx prec v).length ≤ 16 := by
  unfold fmt_lx
  rw [zeroPad_length]
  have h1 : (v % 2 ^ 64).toNat < 16 ^ 16 := by
    have h2 : v % 2 ^ 64 < 2 ^ 64 := Int.emod_lt_of_pos v (by norm_num)
    have h3 : 0 ≤ v % 2 ^ 64 := Int.emod_nonneg v (by norm_num)
    omega
  have := toDigits_length_le 16 (by decide) _ 16 h1 (by decide)
  omega

theorem fmt_lx_length_eq (prec : Nat) (n : Nat) (hp : 0 < prec) (hn : n < 16 ^ prec) :
    (fmt_lx prec (n : Int)).length = prec := by
  unfold fmt_lx
  rw [zeroPad_length]
  have hlt : n < 2 ^ 64 ∨ 2 ^ 64 ≤ n := Nat.lt_or_ge _ _
  have h1 : ((n : Int) % 2 ^ 64).toNat < 16 ^ prec := by
    have h2 : ((n : Int) % 2 ^ 64).toNat = n % 2 ^ 64 := by
      have : ((n : Int) % 2 ^ 64) = ((n % 2 ^ 64 : Nat) : Int) := by
        push_cast
        rfl
      rw [this]
      exact Int.toNat_ofNat _
    rw [h2]
    exact lt_of_le_of_lt (Nat.mod_le _ _) hn
  have := toDigits_length_le 16 (by decide) _ prec h1 hp
  omega

theorem fmt_ld_nonneg (prec : Nat) (n : Nat) :
    fmt_ld prec (n : Int) = zeroPad prec (Nat.toDigits 10 n) := by
  unfold fmt_ld
  have h : ¬ ((n : Int) < 0) := by omega
  rw [if_neg h]
  simp

theorem fmt_ld_all (prec : Nat) (n : Nat) : ∀ ch ∈ fmt_ld prec (n : Int), ch.isDigit = true := by
  rw [fmt_ld_nonneg]
  exact zeroPad_all _ _ (fun ch => ch.isDigit = true) (by decide)
    (toDigits_all 10 (by decide) _ digitChar_digit _)

theorem fmt_ld_length_eq (prec : Nat) (n : Nat) (hp : 0 < prec) (hn : n < 10 ^ prec) :
    (fmt_ld prec (n : Int)).length = prec := by
  rw [fmt_ld_nonneg, zeroPad_length]
  have := toDigits_length_le 10 (by decide) n prec hn hp
  omega

theorem fmt_02x_length (b : UInt8) : (fmt_02x b).length = 2 := by
  unfold fmt_02x
  rw [zeroPad_length]
  have h1 : b.toNat < 16 ^ 2 := UInt8.toNat_lt b
  have := toDigits_length_le 16 (by decide) _ 2 h1 (by decide)
  omega

theorem fmt_02x_all (b : UInt8) : ∀ ch ∈ fmt_02x b, isLowerHex ch = true := by
  unfold fmt_02x
  exact zeroPad_all _ _ (fun ch => isLowerHex ch = true) (by decide)
    (toDigits_all 16 (by decide) _ digitChar_lowerHex _)

theorem render_ne_nul (b : UInt8) : render b ≠ Char.ofNat 0 := by
  unfold render
  split
  · rename_i h
    obtain ⟨h1, h2⟩ := h
    generalize b.toNat = n at h1 h2
    interval_cases n <;> decide
  · decide

theorem to_long_small (n : Nat) (h : n < 2 ^ 63) : to_long n = (n : Int) := by
  unfold to_long SIZE_MOD
  have h1 : n % 2 ^ 64 = n := Nat.mod_eq_of_lt (by omega)
  rw [h1, if_pos h]

/-! ## The hex dump -/

theorem byteAt_drop (buf : List UInt8) (p : Nat) (h : p < buf.length) :
    buf.drop p = byteAt buf p :: buf.drop (p + 1) := by
  unfold byteAt
  rw [List.getD_eq_getElem buf 0 h]
  exact List.drop_eq_getElem_cons h

theorem emit_render (b : UInt8) : emit [render b] = [render b] := by
  apply emit_eq_self
  · simp
  · intro ch hch
    rw [List.mem_singleton.mp hch]
    exact render_ne_nul b

theorem emit_newline : emit ['\n'] = ['\n'] := by
  decide

theorem emit_blank : emit "   ".toList = "   ".toList := by
  decide

theorem emit_cell (b : UInt8) : emit (fmt_02x b ++ [' ']) = fmt_02x b ++ [' '] := by
  apply emit_eq_self
  · rw [List.length_append, fmt_02x_length]
    simp
  · intro ch hch
    rcases List.mem_append.mp hch with h | h
    · exact lowerHex_ne_nul ch (fmt_02x_all b ch h)
    · rw [List.mem_singleton.mp h]
      decide

theorem emit_label (v : Int) :
    emit (fmt_lx 4 v ++ ": ".toList) = fmt_lx 4 v ++ ": ".toList := by
  apply emit_eq_self
  · rw [List.length_append]
    have := fmt_lx_length_le 4 v (by decide)
    have h2 : ": ".toList.length = 2 := rfl
    omega
  · have hlit : ∀ ch ∈ ": ".toList, ch ≠ Char.ofNat 0 := by decide
    intro ch hch
    rcases List.mem_append.mp hch with h | h
    · exact lowerHex_ne_nul ch (fmt_lx_all 4 v ch h)
    · exact hlit ch h

theorem charLoop_plain (buf : List UInt8) (width i : Nat) (hfit : i + width < SIZE_MOD) :
    ∀ k, k ≤ width →
      charLoop buf buf.length false width i k
        = (((buf.drop (i + (width - k))).take k).map render, i) := by
  intro k
  induction k with
  | zero =>
    intro _
    simp [charLoop]
  | succ k ih =>
    intro hk
    have hmod : (i + (width - (k + 1))) % SIZE_MOD = i + (width - (k + 1)) :=
      Nat.mod_eq_of_lt (by omega)
    rw [charLoop]
    simp only [hmod, Bool.false_eq_true, false_and, if_false]
    by_cases hp : i + (width - (k + 1)) < buf.length
    · rw [if_pos hp, ih (by omega), emit_render, byteAt_drop buf _ hp]
      have h1 : i + (width - (k + 1)) + 1 = i + (width - k) := by omega
      rw [h1]
      simp
    · rw [if_neg hp]
      have h1 : buf.drop (i + (width - (k + 1))) = [] := List.drop_of_length_le (by omega)
      rw [h1]
      simp

theorem hexCells_eq (buf : List UInt8) (k : Nat) (hfit : 16 * k + 16 < SIZE_MOD) :
    hexCells buf buf.length 16 (16 * k)
      = ((List.range 16).map (fun c =>
          if 16 * k + c < buf.length then fmt_02x (byteAt buf (16 * k + c)) ++ [' ']
          else "   ".toList)).flatten := by
  unfold hexCells
  congr 1
  apply List.map_congr_left
  intro c hc
  have hc16 : c < 16 := List.mem_range.mp hc
  have hmod : (16 * k + c) % SIZE_MOD = 16 * k + c := Nat.mod_eq_of_lt (by omega)
  rw [hmod]
  split
  · exact emit_cell _
  · exact emit_blank

/-- The row the hex dump writes at index `16 * k`. -/
theorem hex_row_text (buf : List UInt8) (k : Nat) (hfit : 16 * k + 16 < 2 ^ 63) :
    (Row.mk (16 * k) (emit (fmt_lx 4 (to_long (16 * k)) ++ ": ".toList))
        (hexCells buf buf.length 16 (16 * k))
        (charLoop buf buf.length false 16 (16 * k) 16).1).text
      = hexRow buf k := by
  have hfit2 : 16 * k + 16 < SIZE_MOD := by
    unfold SIZE_MOD
    omega
  unfold Row.text hexRow
  simp only []
  rw [emit_label, to_long_small _ (by omega), hexCells_eq buf k hfit2,
    charLoop_plain buf 16 (16 * k) hfit2 16 (le_refl _), emit_newline]
  simp

theorem rowLoop_hex (buf : List UInt8) (hsize : buf.length < 2 ^ 62) :
    ∀ fuel k, (buf.length + 15) / 16 - k ≤ fuel → k ≤ (buf.length + 15) / 16 →
      ∃ rows, rowLoop buf buf.length false 16 fuel (16 * k) = some rows
        ∧ rows.map Row.text
          = (List.range' k ((buf.length + 15) / 16 - k)).map (hexRow buf) := by
  intro fuel
  induction fuel with
  | zero =>
    intro k hfuel hk
    have hk2 : k = (buf.length + 15) / 16 := by omega
    have hnot : ¬ 16 * k < buf.length := by omega
    refine ⟨[], ?_, ?_⟩
    · rw [rowLoop]
      simp [hnot]
    · have : (buf.length + 15) / 16 - k = 0 := by omega
      rw [this]
      rfl
  | succ f ih =>
    intro k hfuel hk
    by_cases hlt : 16 * k < buf.length
    · have hk3 : k + 1 ≤ (buf.length + 15) / 16 := by omega
      have hfit : 16 * k + 16 < SIZE_MOD := by
        unfold SIZE_MOD
        omega
      have hnext : ((charLoop buf buf.length false 16 (16 * k) 16).2 + 16) % SIZE_MOD
          = 16 * (k + 1) := by
        rw [charLoop_plain buf 16 (16 * k) hfit 16 (le_refl _)]
        simp only []
        rw [Nat.mod_eq_of_lt (by omega)]
        ring
      obtain ⟨rows, hrows, htext⟩ := ih (k + 1) (by omega) hk3
      refine ⟨Row.mk (16 * k) (emit (fmt_lx 4 (to_long (16 * k)) ++ ": ".toList))
        (hexCells buf buf.length 16 (16 * k))
        (charLoop buf buf.length false 16 (16 * k) 16).1 :: rows, ?_, ?_⟩
      · rw [rowLoop]
        simp only [hlt, if_true, Bool.false_eq_true, if_false, hnext, hrows, Option.map_some']
      · have hcount : (buf.length + 15) / 16 - k = ((buf.length + 15) / 16 - (k + 1)) + 1 := by
          omega
        rw [hcount, List.range'_succ, List.map_cons, List.map_cons, htext,
          hex_row_text buf k (by omega)]
    · have hk2 : k = (buf.length + 15) / 16 := by omega
      refine ⟨[], ?_, ?_⟩
      · rw [rowLoop]
        simp [hlt]
      · have : (buf.length + 15) / 16 - k = 0 := by omega
        rw [this]
        rfl

theorem dump_header_eq (text : Str) (n : Nat) (htext : text.length ≤ 991)
    (hnul : ∀ ch ∈ text, ch ≠ Char.ofNat 0) (hn : n < 2 ^ 32) :
    dump_header text n = hexHeader text n := by
  unfold dump_header hexHeader
  rw [to_long_small n (by omega)]
  apply emit_eq_self
  · have h1 := fmt_ld_length_eq 10 n (by decide) (by omega)
    have h2 := fmt_lx_length_eq 8 n (by decide) (by norm_num; omega)
    simp only [List.length_append, h1, h2]
    have h3 : ", ".toList.length = 2 := rfl
    have h4 : " bytes (0x".toList.length = 10 := rfl
    have h5 : ")\n".toList.length = 2 := rfl
    omega
  · have hlit : ∀ ch ∈ ", ".toList ++ " bytes (0x".toList ++ ")\n".toList, ch ≠ Char.ofNat 0 := by
      decide
    intro ch hch
    simp only [List.mem_append] at hch hlit
    rcases hch with ((((h | h) | h) | h) | h) | h
    · exact hnul ch h
    · exact hlit ch (Or.inl (Or.inl h))
    · exact lowerHex_ne_nul ch (digit_lowerHex ch (fmt_ld_all 10 n ch h))
    · exact hlit ch (Or.inl (Or.inr h))
    · exact lowerHex_ne_nul ch (fmt_lx_all 8 _ ch h)
    · exact hlit ch (Or.inr h)

set_option maxRecDepth 8000

theorem dump_header_cut (text : Str) (hlen : text.length = 1000)
    (hnul : ∀ ch ∈ text, ch ≠ Char.ofNat 0) :
    dump_header text 2 = text ++ ", 0000000002 bytes (0x0".toList := by
  have htail : ", ".toList ++ fmt_ld 10 (to_long 2) ++ " bytes (0x".toList
      ++ fmt_lx 8 (to_long 2) ++ ")\n".toList = ", 0000000002 bytes (0x00000002)\n".toList := by
    decide
  have hform : text ++ ", ".toList ++ fmt_ld 10 (to_long 2) ++ " bytes (0x".toList
      ++ fmt_lx 8 (to_long 2) ++ ")\n".toList
        = text ++ ", 0000000002 bytes (0x00000002)\n".toList := by
    rw [← htail]
    simp only [List.append_assoc]
  unfold dump_header emit
  rw [hform]
  have htake : (text ++ ", 0000000002 bytes (0x00000002)\n".toList).take (DBG_BUF_SIZE - 1)
      = text ++ ", 0000000002 bytes (0x0".toList := by
    have h1 : DBG_BUF_SIZE - 1 = text.length + 23 := by
      rw [hlen]
      rfl
    rw [h1, List.take_append]
    rfl
  rw [htake]
  apply c_str_eq_self
  have hlit : ∀ ch ∈ ", 0000000002 bytes (0x0".toList, ch ≠ Char.ofNat 0 := by decide
  intro ch hch
  rcases List.mem_append.mp hch with h | h
  · exact hnul ch h
  · exact hlit ch h

/-- C5, counterexample. With a label of 1000 characters the first `snprintf` fills
its 1024-byte buffer before the header is complete: the header written is the label
followed by `, 0000000002 bytes (0x0`, without the rest of the hex count, the closing
bracket and the newline, and the first row follows on the same line.  And for a size
of 2^32 the header holds a hex count of nine digits. -/
theorem dump_long_label_cut :
    dump (List.replicate 1000 'x') [0x41, 0x42] 2 0
        = some (Severity.SEV_DEBUG, "CURL: ".toList
            ++ ((List.replicate 1000 'x' ++ ", 0000000002 bytes (0x0".toList)
            ++ hexRow [0x41, 0x42] 0))
    ∧ dump (List.replicate 1000 'x') [0x41, 0x42] 2 0
        ≠ some (Severity.SEV_DEBUG, "CURL: ".toList
            ++ (hexHeader (List.replicate 1000 'x') 2 ++ hexRow [0x41, 0x42] 0))
    ∧ dump_header "lbl".toList (2 ^ 32) = "lbl, 4294967296 bytes (0x100000000)\n".toList := by
  have hx : ∀ ch ∈ List.replicate 1000 'x', ch ≠ Char.ofNat 0 := by
    intro ch hch
    rw [(List.mem_replicate.mp hch).2]
    decide
  have hrows : dump_rows [0x41, 0x42] 2 0
      = some [Row.mk 0 "0000: ".toList
          "41 42                                           ".toList "AB".toList] := by
    decide
  have hrow : (Row.mk 0 "0000: ".toList
      "41 42                                           ".toList "AB".toList).text
        = hexRow [0x41, 0x42] 0 := by
    decide
  have hval : dump (List.replicate 1000 'x') [0x41, 0x42] 2 0
      = some (Severity.SEV_DEBUG, "CURL: ".toList
          ++ ((List.replicate 1000 'x' ++ ", 0000000002 bytes (0x0".toList)
          ++ hexRow [0x41, 0x42] 0)) := by
    unfold dump
    rw [hrows, dump_header_cut _ (List.length_replicate _ _) hx]
    simp only [Option.map_some', List.map_cons, List.map_nil, List.flatten_cons,
      List.flatten_nil, List.append_nil, hrow]
  refine ⟨hval, ?_, by decide⟩
  rw [hval]
  intro h
  have h1 := (Prod.mk.inj (Option.some.inj h)).2
  have h2 := List.append_cancel_right (List.append_cancel_left h1)
  have htail : ", ".toList ++ (fmt_ld 10 ((2 : Nat) : Int) ++ (" bytes (0x".toList
      ++ (fmt_lx 8 ((2 : Nat) : Int) ++ ")\n".toList)))
        = ", 0000000002 bytes (0x00000002)\n".toList := by
    decide
  unfold hexHeader at h2
  simp only [List.append_assoc] at h2
  rw [htail] at h2
  have h3 := List.append_cancel_left h2
  revert h3
  decide

/-- C5, amended. For every label of at most 991 characters (a C string, so without
NUL) and every buffer of n < 2^32 bytes, `dump` in hex mode (`nohex = 0`) logs
`CURL: `, the header line (label, byte count in exactly ten decimal digits and in
exactly eight lowercase hex digits) and exactly ceil(n/16) rows; row k is the offset
16k in at least four lowercase hex digits and `: `, sixteen cells of three
characters (two lowercase hex digits and a space for a byte present, three spaces
past the end), the characters of the bytes of the row, and a newline. -/
theorem dump_hex_layout (text : Str) (buf : List UInt8) (htext : text.length ≤ 991)
    (hnul : ∀ ch ∈ text, ch ≠ Char.ofNat 0) (hsize : buf.length < 2 ^ 32) :
    dump text buf buf.length 0
        = some (Severity.SEV_DEBUG, "CURL: ".toList
            ++ (hexHeader text buf.length
            ++ ((List.range ((buf.length + 15) / 16)).map (hexRow buf)).flatten))
    ∧ ((fmt_ld 10 (buf.length : Int)).length = 10
        ∧ ∀ ch ∈ fmt_ld 10 (buf.length : Int), ch.isDigit = true)
    ∧ ((fmt_lx 8 (buf.length : Int)).length = 8
        ∧ ∀ ch ∈ fmt_lx 8 (buf.length : Int), isLowerHex ch = true)
    ∧ (∀ k : Nat, 4 ≤ (fmt_lx 4 ((16 * k : Nat) : Int)).length
        ∧ ∀ ch ∈ fmt_lx 4 ((16 * k : Nat) : Int), isLowerHex ch = true)
    ∧ (∀ b : UInt8, (fmt_02x b).length = 2 ∧ ∀ ch ∈ fmt_02x b, isLowerHex ch = true) := by
  refine ⟨?_, ⟨?_, ?_⟩, ⟨?_, ?_⟩, ?_, ?_⟩
  · obtain ⟨rows, hrows, htext2⟩ :=
      rowLoop_hex buf (by omega) buf.length 0 (by omega) (Nat.zero_le _)
    have hd : dump_rows buf buf.length 0 = some rows := by
      unfold dump_rows
      simpa using hrows
    unfold dump
    rw [hd, dump_header_eq text buf.length htext hnul hsize]
    simp only [Option.map_some', htext2, Nat.sub_zero, List.range_eq_range']
  · exact fmt_ld_length_eq 10 _ (by decide) (by omega)
  · exact fmt_ld_all 10 _
  · exact fmt_lx_length_eq 8 _ (by decide) (by norm_num; omega)
  · exact fmt_lx_all 8 _
  · intro k
    exact ⟨fmt_lx_length_ge 4 _, fmt_lx_all 4 _⟩
  · intro b
    exact ⟨fmt_02x_length b, fmt_02x_all b⟩

/-- C5, witness: the buffer `AB` under the label `lbl`. -/
theorem dump_hex_layout_witness :
    ("lbl".toList.length ≤ 991 ∧ [(0x41 : UInt8), 0x42].length < 2 ^ 32)
    ∧ dump "lbl".toList [0x41, 0x42] 2 0
      = some (Severity.SEV_DEBUG,
          ("CURL: lbl, 0000000002 bytes (0x00000002)\n"
            ++ "0000: 41 42                                           AB\n").toList) :=
  ⟨by decide,
    (dump_hex_layout "lbl".toList [0x41, 0x42] (by decide) (by decide) (by decide)).1.trans
      (by decide)⟩

/-- C7, the code at the failing input. The byte 0x7F (DEL) passes the test
`>= 0x20 && < 0x80` of line 262 and is written as itself, not as `.`, in both modes;
its neighbours 0x7E and 0x80 are written as `~` and `.`. -/
theorem render_del_not_masked :
    render 0x7F = Char.ofNat 0x7F ∧ render 0x7F ≠ '.'
    ∧ render 0x7E = '~' ∧ render 0x80 = '.' ∧ render 0x1F = '.'
    ∧ dump_rows [0x7F] 1 1 = some [Row.mk 0 "0000: ".toList [] [Char.ofNat 0x7F]]
    ∧ dump_rows [0x7F] 1 0
        = some [Row.mk 0 "0000: ".toList
            "7f                                              ".toList [Char.ofNat 0x7F]] := by
  decide

/-! ## The ASCII-only dump -/

theorem size_mod_eq : SIZE_MOD = 18446744073709551616 := by
  unfold SIZE_MOD
  norm_num

theorem not_CRLFat_end (buf : List UInt8) (p : Nat) (h : buf.length ≤ p + 1) :
    ¬ CRLFat buf p := by
  intro hc
  have := hc.1
  omega

/-- One pass of the inner loop in ASCII-only mode, from column `64 - k` on. -/
theorem charLoop_ascii (buf : List UInt8) (hsize : buf.length < 2 ^ 63) (i : Nat) :
    ∀ k, k ≤ 64 → i + (64 - k) ≤ buf.length →
      (0 < 64 - k → ¬ CRLFat buf (i + (64 - k))) →
      ∃ len, len ≤ k ∧ i + (64 - k) + len ≤ buf.length
        ∧ (charLoop buf buf.length true 64 i k).1
            = ((buf.drop (i + (64 - k))).take len).map render
        ∧ (∀ j, j < len → ¬ CRLFat buf (i + (64 - k) + j))
        ∧ ((CRLFat buf (i + (64 - k) + len)
              ∧ ((charLoop buf buf.length true 64 i k).2 + 64) % SIZE_MOD
                  = i + (64 - k) + len + 2)
            ∨ (¬ CRLFat buf (i + (64 - k) + len)
              ∧ (charLoop buf buf.length true 64 i k).2 = i
              ∧ (len = k ∨ i + (64 - k) + len = buf.length)
              ∧ (0 < k → i + (64 - k) < buf.length → 1 ≤ len))) := by
  intro k
  induction k with
  | zero =>
    intro _ _ hpre
    refine ⟨0, le_refl _, by omega, by simp [charLoop], ?_, ?_⟩
    · intro j hj
      omega
    · right
      refine ⟨?_, rfl, Or.inl rfl, ?_⟩
      · exact hpre (by omega)
      · intro h
        omega
  | succ k ih =>
    intro hk hp hpre
    have hM := size_mod_eq
    have hm0 : (i + (64 - (k + 1))) % SIZE_MOD = i + (64 - (k + 1)) :=
      Nat.mod_eq_of_lt (by omega)
    have hm1 : (i + (64 - (k + 1)) + 1) % SIZE_MOD = i + (64 - (k + 1)) + 1 :=
      Nat.mod_eq_of_lt (by omega)
    have hm2 : (i + (64 - (k + 1)) + 2) % SIZE_MOD = i + (64 - (k + 1)) + 2 :=
      Nat.mod_eq_of_lt (by omega)
    rw [charLoop]
    simp only [hm0, hm1, hm2, true_and]
    by_cases hlt : i + (64 - (k + 1)) < buf.length
    · rw [if_pos hlt]
      by_cases hcr : CRLFat buf (i + (64 - (k + 1)))
      · have hc1 : i + (64 - (k + 1)) + 1 < buf.length
            ∧ byteAt buf (i + (64 - (k + 1))) = 0x0D
            ∧ byteAt buf (i + (64 - (k + 1)) + 1) = 0x0A := hcr
        rw [if_pos hc1]
        refine ⟨0, Nat.zero_le _, by omega, by simp, ?_, ?_⟩
        · intro j hj
          omega
        · left
          refine ⟨hcr, ?_⟩
          simp only [size_mod_eq]
          have := hcr.1
          omega
      · have hc1 : ¬ (i + (64 - (k + 1)) + 1 < buf.length
            ∧ byteAt buf (i + (64 - (k + 1))) = 0x0D
            ∧ byteAt buf (i + (64 - (k + 1)) + 1) = 0x0A) := hcr
        rw [if_neg hc1, emit_render]
        by_cases hcr2 : CRLFat buf (i + (64 - (k + 1)) + 1)
        · have hc2 : i + (64 - (k + 1)) + 2 < buf.length
              ∧ byteAt buf (i + (64 - (k + 1)) + 1) = 0x0D
              ∧ byteAt buf (i + (64 - (k + 1)) + 2) = 0x0A := hcr2
          rw [if_pos hc2]
          refine ⟨1, by omega, by omega, ?_, ?_, ?_⟩
          · rw [byteAt_drop buf _ hlt]
            simp
          · intro j hj
            have : j = 0 := by omega
            subst this
            exact hcr
          · left
            refine ⟨hcr2, ?_⟩
            simp only [size_mod_eq]
            have := hcr2.1
            omega
        · have hc2 : ¬ (i + (64 - (k + 1)) + 2 < buf.length
              ∧ byteAt buf (i + (64 - (k + 1)) + 1) = 0x0D
              ∧ byteAt buf (i + (64 - (k + 1)) + 2) = 0x0A) := hcr2
          rw [if_neg hc2]
          have hstep : i + (64 - (k + 1)) + 1 = i + (64 - k) := by omega
          rw [hstep] at hcr2
          obtain ⟨len, hlen, hfit, hchars, hnone, hend⟩ :=
            ih (by omega) (by omega) (fun _ => hcr2)
          refine ⟨len + 1, by omega, by omega, ?_, ?_, ?_⟩
          · simp only []
            rw [hchars, byteAt_drop buf _ hlt, hstep]
            simp
          · intro j hj
            cases j with
            | zero => exact hcr
            | succ j1 =>
              have h1 : i + (64 - (k + 1)) + (j1 + 1) = i + (64 - k) + j1 := by omega
              rw [h1]
              exact hnone j1 (by omega)
          · have h1 : i + (64 - (k + 1)) + (len + 1) = i + (64 - k) + len := by omega
            rw [h1]
            rcases hend with ⟨ha, hb⟩ | ⟨ha, hb, hc, _⟩
            · left
              exact ⟨ha, by simpa using hb⟩
            · right
              refine ⟨ha, by simpa using hb, ?_, ?_⟩
              · rcases hc with h | h
                · left
                  omega
                · right
                  exact h
              · intro _ _
                omega
    · rw [if_neg hlt]
      refine ⟨0, Nat.zero_le _, by omega, by simp, ?_, ?_⟩
      · intro j hj
        omega
      · right
        refine ⟨not_CRLFat_end buf _ (by omega), rfl, Or.inr (by omega), ?_⟩
        intro _ h
        omega

theorem rowsOK_past_end (buf : List UInt8) (i : Nat) (rows : List Row) (h : RowsOK buf i rows)
    (hi : buf.length ≤ i) : rows = [] := by
  cases h with
  | done _ _ => rfl
  | brk _ _ _ _ hlt => omega
  | full _ _ _ _ hlt => omega

theorem rowLoop_ascii (buf : List UInt8) (hsize : buf.length < 2 ^ 63) :
    ∀ fuel i, buf.length - i ≤ fuel → i < buf.length + 64 →
      ∃ rows, rowLoop buf buf.length true 64 fuel i = some rows ∧ RowsOK buf i rows := by
  intro fuel
  induction fuel with
  | zero =>
    intro i hfuel _
    have hnot : ¬ i < buf.length := by omega
    refine ⟨[], ?_, RowsOK.done i (by omega)⟩
    rw [rowLoop]
    simp [hnot]
  | succ f ih =>
    intro i hfuel hbound
    by_cases hlt : i < buf.length
    · have h := charLoop_ascii buf hsize i 64 (le_refl _) (by omega) (by simp)
      simp only [Nat.sub_self, Nat.add_zero] at h
      obtain ⟨len, hlen, hfit, hchars, hnone, hend⟩ := h
      have hlabel : emit (fmt_lx 4 (to_long i) ++ ": ".toList)
          = fmt_lx 4 (i : Int) ++ ": ".toList := by
        rw [emit_label, to_long_small i (by omega)]
      rcases hend with ⟨hpair, hnext⟩ | ⟨hpair, hsame, hfull, hpos⟩
      · have hp1 := hpair.1
        obtain ⟨rs, hrs, hok⟩ := ih (i + len + 2) (by omega) (by omega)
        refine ⟨Row.mk i (fmt_lx 4 (i : Int) ++ ": ".toList) []
          (((buf.drop i).take len).map render) :: rs, ?_, ?_⟩
        · rw [rowLoop]
          simp only [hlt, if_true, hnext, hrs, Option.map_some', hlabel, hchars]
        · exact RowsOK.brk i len _ rs hlt rfl rfl rfl hlen hfit rfl hnone hpair hok
      · have hnext : ((charLoop buf buf.length true 64 i 64).2 + 64) % SIZE_MOD = i + 64 := by
          rw [hsame, size_mod_eq]
          omega
        obtain ⟨rs, hrs, hok⟩ := ih (i + 64) (by omega) (by omega)
        have hok2 : RowsOK buf (i + len) rs := by
          rcases hfull with h | h
          · rw [h]
            exact hok
          · have hnil := rowsOK_past_end buf (i + 64) rs hok (by omega)
            rw [hnil]
            exact RowsOK.done _ (by omega)
        refine ⟨Row.mk i (fmt_lx 4 (i : Int) ++ ": ".toList) []
          (((buf.drop i).take len).map render) :: rs, ?_, ?_⟩
        · rw [rowLoop]
          simp only [hlt, if_true, hnext, hrs, Option.map_some', hlabel, hchars]
        · exact RowsOK.full i len _ rs hlt rfl rfl rfl hlen (hpos (by decide) hlt) hfit rfl
            hnone hpair hok2
    · refine ⟨[], ?_, RowsOK.done i (by omega)⟩
      rw [rowLoop]
      simp [hlt]

theorem byteAt_drop_add (buf : List UInt8) (i j : Nat) :
    byteAt (buf.drop i) j = byteAt buf (i + j) := by
  unfold byteAt
  simp [List.getD_eq_getElem?_getD, List.getElem?_drop]

theorem CRLFat_drop (buf : List UInt8) (i j : Nat) :
    CRLFat (buf.drop i) j ↔ CRLFat buf (i + j) := by
  unfold CRLFat
  rw [byteAt_drop_add, byteAt_drop_add, List.length_drop]
  have h1 : i + (j + 1) = i + j + 1 := by omega
  rw [h1]
  constructor
  · rintro ⟨h2, h3, h4⟩
    exact ⟨by omega, h3, h4⟩
  · rintro ⟨h2, h3, h4⟩
    exact ⟨by omega, h3, h4⟩

theorem CRLFat_cons_succ (b : UInt8) (l : List UInt8) (j : Nat) :
    CRLFat (b :: l) (j + 1) ↔ CRLFat l j := by
  have h := CRLFat_drop (b :: l) 1 j
  simp only [List.drop_succ_cons, List.drop_zero] at h
  rw [h, Nat.add_comm 1 j]

theorem CRLFat_zero (b b2 : UInt8) (t : List UInt8) :
    CRLFat (b :: b2 :: t) 0 ↔ b = 0x0D ∧ b2 = 0x0A := by
  unfold CRLFat byteAt
  simp

theorem stripCRLF_take (len : Nat) : ∀ l : List UInt8, (∀ j, j < len → ¬ CRLFat l j) →
    stripCRLF l = l.take len ++ stripCRLF (l.drop len) := by
  induction len with
  | zero =>
    intro l _
    simp
  | succ n ih =>
    intro l hnone
    match l with
    | [] => simp [stripCRLF]
    | [b] => simp [stripCRLF]
    | b :: b2 :: t =>
      have h0 : ¬ (b = 0x0D ∧ b2 = 0x0A) := by
        rw [← CRLFat_zero b b2 t]
        exact hnone 0 (by omega)
      have hrec := ih (b2 :: t) (fun j hj => by
        rw [← CRLFat_cons_succ b]
        exact hnone (j + 1) (by omega))
      rw [stripCRLF, if_neg h0, hrec]
      simp

theorem stripCRLF_pair (l : List UInt8) (h : CRLFat l 0) :
    stripCRLF l = stripCRLF (l.drop 2) := by
  match l with
  | [] => simp
  | [b] =>
    have := h.1
    simp at this
  | b :: b2 :: t =>
    have h0 : b = 0x0D ∧ b2 = 0x0A := (CRLFat_zero b b2 t).mp h
    rw [stripCRLF, if_pos h0]
    simp

theorem slice_length (buf : List UInt8) (i len : Nat) (hfit : i + len ≤ buf.length) :
    (((buf.drop i).take len).map render).length = len := by
  rw [List.length_map, List.length_take, List.length_drop]
  omega

/-- The characters of the rows are the rendering of the buffer without its CR LF
pairs. -/
theorem rowsOK_chars (buf : List UInt8) (i : Nat) (rows : List Row) (h : RowsOK buf i rows) :
    (rows.map Row.chars).flatten = (stripCRLF (buf.drop i)).map render := by
  induction h with
  | done i hi =>
    rw [List.drop_of_length_le hi]
    simp [stripCRLF]
  | brk i len r rs hi hoff hlabel hcells hlen hfit hchars hnone hpair hrest ih =>
    have h1 : ∀ j, j < len → ¬ CRLFat (buf.drop i) j := fun j hj => by
      rw [CRLFat_drop]
      exact hnone j hj
    have h2 : CRLFat (buf.drop (i + len)) 0 := by
      rw [CRLFat_drop]
      exact hpair
    rw [List.map_cons, List.flatten_cons, ih, hchars, stripCRLF_take len _ h1, List.drop_drop,
      stripCRLF_pair _ h2, List.drop_drop, List.map_append]
  | full i len r rs hi hoff hlabel hcells hlen hpos hfit hchars hnone hpair hrest ih =>
    have h1 : ∀ j, j < len → ¬ CRLFat (buf.drop i) j := fun j hj => by
      rw [CRLFat_drop]
      exact hnone j hj
    rw [List.map_cons, List.flatten_cons, ih, hchars, stripCRLF_take len _ h1, List.drop_drop,
      List.map_append]

/-- Every row holds at most 64 characters, has no hex cells, carries its offset in
its label, and renders the bytes that follow its offset. -/
theorem rowsOK_rows (buf : List UInt8) (i : Nat) (rows : List Row) (h : RowsOK buf i rows) :
    ∀ r ∈ rows, r.chars.length ≤ 64 ∧ r.cells = []
      ∧ r.label = fmt_lx 4 (r.offset : Int) ++ ": ".toList
      ∧ r.chars = ((buf.drop r.offset).take r.chars.length).map render
      ∧ r.offset + r.chars.length ≤ buf.length := by
  induction h with
  | done i hi =>
    intro r hr
    cases hr
  | brk i len r rs hi hoff hlabel hcells hlen hfit hchars hnone hpair hrest ih =>
    intro r1 hr1
    rcases List.mem_cons.mp hr1 with h | h
    · subst h
      have hl : r1.chars.length = len := by
        rw [hchars]
        exact slice_length buf i len hfit
      rw [hl, hoff]
      exact ⟨hlen, hcells, hlabel, hchars, hfit⟩
    · exact ih r1 h
  | full i len r rs hi hoff hlabel hcells hlen hpos hfit hchars hnone hpair hrest ih =>
    intro r1 hr1
    rcases List.mem_cons.mp hr1 with h | h
    · subst h
      have hl : r1.chars.length = len := by
        rw [hchars]
        exact slice_length buf i len hfit
      rw [hl, hoff]
      exact ⟨hlen, hcells, hlabel, hchars, hfit⟩
    · exact ih r1 h

/-- No byte a row renders is the CR or the LF of a CR LF pair. -/
theorem rowsOK_no_pair_byte (buf : List UInt8) (i : Nat) (rows : List Row)
    (h : RowsOK buf i rows) :
    (∀ q, q + 1 = i → ¬ CRLFat buf q) →
    ∀ r ∈ rows, ∀ j, r.offset ≤ j → j < r.offset + r.chars.length →
      ¬ CRLFat buf j ∧ ∀ q, q + 1 = j → ¬ CRLFat buf q := by
  induction h with
  | done i hi =>
    intro _ r hr
    cases hr
  | brk i len r rs hi hoff hlabel hcells hlen hfit hchars hnone hpair hrest ih =>
    intro hstart r1 hr1 j hj1 hj2
    rcases List.mem_cons.mp hr1 with h | h
    · subst h
      have hl : r1.chars.length = len := by
        rw [hchars]
        exact slice_length buf i len hfit
      rw [hl, hoff] at hj2
      rw [hoff] at hj1
      have hjj : j = i + (j - i) := by omega
      refine ⟨?_, ?_⟩
      · rw [hjj]
        exact hnone (j - i) (by omega)
      · intro q hq
        by_cases hji : j = i
        · exact hstart q (by omega)
        · have hqq : q = i + (q - i) := by omega
          rw [hqq]
          exact hnone (q - i) (by omega)
    · refine ih ?_ r1 h j hj1 hj2
      intro q hq hc
      have hq2 : q = i + len + 1 := by omega
      rw [hq2] at hc
      have h1 := hpair.2.2
      have h2 := hc.2.1
      rw [h1] at h2
      revert h2
      decide
  | full i len r rs hi hoff hlabel hcells hlen hpos hfit hchars hnone hpair hrest ih =>
    intro hstart r1 hr1 j hj1 hj2
    rcases List.mem_cons.mp hr1 with h | h
    · subst h
      have hl : r1.chars.length = len := by
        rw [hchars]
        exact slice_length buf i len hfit
      rw [hl, hoff] at hj2
      rw [hoff] at hj1
      have hjj : j = i + (j - i) := by omega
      refine ⟨?_, ?_⟩
      · rw [hjj]
        exact hnone (j - i) (by omega)
      · intro q hq
        by_cases hji : j = i
        · exact hstart q (by omega)
        · have hqq : q = i + (q - i) := by omega
          rw [hqq]
          exact hnone (q - i) (by omega)
    · refine ih ?_ r1 h j hj1 hj2
      intro q hq
      have hqq : q = i + (len - 1) := by omega
      rw [hqq]
      exact hnone (len - 1) (by omega)

theorem rowsOK_head (buf : List UInt8) (n : Nat) (rs : List Row) (h : RowsOK buf n rs)
    (hn : n < buf.length) : ∃ r2 post2, rs = r2 :: post2 ∧ r2.offset = n := by
  cases h with
  | done _ hi => omega
  | brk _ len r rs1 _ hoff => exact ⟨r, rs1, rfl, hoff⟩
  | full _ len r rs1 _ hoff => exact ⟨r, rs1, rfl, hoff⟩

/-- Every CR LF pair ends a row, and the next row starts right after the LF. -/
theorem rowsOK_pair_ends_row (buf : List UInt8) (i : Nat) (rows : List Row)
    (h : RowsOK buf i rows) :
    ∀ p, i ≤ p → CRLFat buf p →
      ∃ pre r post, rows = pre ++ r :: post ∧ r.offset + r.chars.length = p
        ∧ (p + 2 < buf.length → ∃ r2 post2, post = r2 :: post2 ∧ r2.offset = p + 2)
        ∧ (buf.length ≤ p + 2 → post = []) := by
  induction h with
  | done i hi =>
    intro p hp hc
    have := hc.1
    omega
  | brk i len r rs hi hoff hlabel hcells hlen hfit hchars hnone hpair hrest ih =>
    intro p hp hc
    have hl : r.chars.length = len := by
      rw [hchars]
      exact slice_length buf i len hfit
    have hge : i + len ≤ p := by
      by_contra hlt
      have hpp : p = i + (p - i) := by omega
      rw [hpp] at hc
      exact hnone (p - i) (by omega) hc
    by_cases heq : p = i + len
    · subst heq
      refine ⟨[], r, rs, rfl, by rw [hoff, hl], ?_, ?_⟩
      · intro h2
        exact rowsOK_head buf _ rs hrest h2
      · intro h2
        exact rowsOK_past_end buf _ rs hrest h2
    · have hne : p ≠ i + len + 1 := by
        intro h1
        rw [h1] at hc
        have h2 := hpair.2.2
        have h3 := hc.2.1
        rw [h2] at h3
        revert h3
        decide
      obtain ⟨pre, r1, post, hrows, hend, hnext, hlast⟩ := ih p (by omega) hc
      exact ⟨r :: pre, r1, post, by rw [hrows]; rfl, hend, hnext, hlast⟩
  | full i len r rs hi hoff hlabel hcells hlen hpos hfit hchars hnone hpair hrest ih =>
    intro p hp hc
    have hge : i + len ≤ p := by
      by_contra hlt
      have hpp : p = i + (p - i) := by omega
      rw [hpp] at hc
      exact hnone (p - i) (by omega) hc
    have hne : p ≠ i + len := by
      intro h1
      rw [h1] at hc
      exact hpair hc
    obtain ⟨pre, r1, post, hrows, hend, hnext, hlast⟩ := ih p (by omega) hc
    exact ⟨r :: pre, r1, post, by rw [hrows]; rfl, hend, hnext, hlast⟩

/-- C6. For every label and every buffer that fits a 64-bit address space (fewer
than 2^63 bytes), `dump` in ASCII-only mode (`nohex != 0`) ends and logs the header
and rows of the form offset, `: `, characters, newline, such that: the characters of
all rows together are the rendering of the buffer with every CR LF pair deleted (a
lone CR or LF is rendered as `.`); every row holds at most 64 characters, the bytes
that follow its offset; no rendered byte is the CR or the LF of a CR LF pair; and
every CR LF pair ends a row, the next row starting at the index right after the LF
(no row follows a pair that ends the buffer). -/
theorem dump_ascii_crlf (text : Str) (buf : List UInt8) (nohex : Int) (hno : nohex ≠ 0)
    (hsize : buf.length < 2 ^ 63) :
    ∃ rows, dump_rows buf buf.length nohex = some rows
      ∧ dump text buf buf.length nohex
          = some (Severity.SEV_DEBUG, "CURL: ".toList
              ++ (dump_header text buf.length ++ (rows.map Row.text).flatten))
      ∧ (∀ r ∈ rows, r.text = fmt_lx 4 (r.offset : Int) ++ ": ".toList ++ r.chars ++ ['\n'])
      ∧ (rows.map Row.chars).flatten = (stripCRLF buf).map render
      ∧ render 0x0D = '.' ∧ render 0x0A = '.'
      ∧ (∀ r ∈ rows, r.chars.length ≤ 64
          ∧ r.chars = ((buf.drop r.offset).take r.chars.length).map render)
      ∧ (∀ r ∈ rows, ∀ j, r.offset ≤ j → j < r.offset + r.chars.length →
          ¬ CRLFat buf j ∧ ∀ q, q + 1 = j → ¬ CRLFat buf q)
      ∧ (∀ p, CRLFat buf p →
          ∃ pre r post, rows = pre ++ r :: post ∧ r.offset + r.chars.length = p
            ∧ (p + 2 < buf.length → ∃ r2 post2, post = r2 :: post2 ∧ r2.offset = p + 2)
            ∧ (buf.length ≤ p + 2 → post = [])) := by
  obtain ⟨rows, hrows, hok⟩ := rowLoop_ascii buf hsize buf.length 0 (by omega) (by omega)
  have hd : dump_rows buf buf.length nohex = some rows := by
    unfold dump_rows
    simp only [hno, ne_eq, not_false_eq_true, decide_True, if_true]
    exact hrows
  have hall := rowsOK_rows buf 0 rows hok
  refine ⟨rows, hd, ?_, ?_, ?_, by decide, by decide, ?_, ?_, ?_⟩
  · unfold dump
    rw [hd]
    rfl
  · intro r hr
    obtain ⟨_, hcells, hlabel, _, _⟩ := hall r hr
    unfold Row.text
    rw [hcells, hlabel, emit_newline, List.append_nil]
  · have h := rowsOK_chars buf 0 rows hok
    rw [List.drop_zero] at h
    exact h
  · intro r hr
    obtain ⟨h1, _, _, h4, _⟩ := hall r hr
    exact ⟨h1, h4⟩
  · exact rowsOK_no_pair_byte buf 0 rows hok (fun q hq => by omega)
  · intro p hp
    exact rowsOK_pair_ends_row buf 0 rows hok p (Nat.zero_le _) hp

/-- C6, witness: the ten bytes of `sampleTrace`. -/
theorem dump_ascii_crlf_witness :
    ((1 : Int) ≠ 0 ∧ sampleTrace.length < 2 ^ 63)
    ∧ dump_rows sampleTrace sampleTrace.length 1
        = some [Row.mk 0 "0000: ".toList [] "AB".toList, Row.mk 4 "0004: ".toList [] "C".toList,
            Row.mk 7 "0007: ".toList [] [], Row.mk 9 "0009: ".toList [] ".".toList]
    ∧ ∃ rows, dump_rows sampleTrace sampleTrace.length 1 = some rows
      ∧ dump "<= Recv header".toList sampleTrace sampleTrace.length 1
          = some (Severity.SEV_DEBUG, "CURL: ".toList
              ++ (dump_header "<= Recv header".toList sampleTrace.length
                ++ (rows.map Row.text).flatten))
      ∧ (∀ r ∈ rows, r.text = fmt_lx 4 (r.offset : Int) ++ ": ".toList ++ r.chars ++ ['\n'])
      ∧ (rows.map Row.chars).flatten = (stripCRLF sampleTrace).map render
      ∧ render 0x0D = '.' ∧ render 0x0A = '.'
      ∧ (∀ r ∈ rows, r.chars.length ≤ 64
          ∧ r.chars = ((sampleTrace.drop r.offset).take r.chars.length).map render)
      ∧ (∀ r ∈ rows, ∀ j, r.offset ≤ j → j < r.offset + r.chars.length →
          ¬ CRLFat sampleTrace j ∧ ∀ q, q + 1 = j → ¬ CRLFat sampleTrace q)
      ∧ (∀ p, CRLFat sampleTrace p →
          ∃ pre r post, rows = pre ++ r :: post ∧ r.offset + r.chars.length = p
            ∧ (p + 2 < sampleTrace.length → ∃ r2 post2, post = r2 :: post2 ∧ r2.offset = p + 2)
            ∧ (sampleTrace.length ≤ p + 2 → post = [])) :=
  ⟨⟨by decide, by decide⟩, by decide,
    dump_ascii_crlf "<= Recv header".toList sampleTrace 1 (by decide) (by decide)⟩

end SinspCurl
